import Mathlib

/-!
Verification of the MultiAgentOrchestrator core against its specification.

This file shallowly embeds the parts of the implementation that the
properties below are about:

* `src/core/workflow.py` — the `AgreementValidator`, the `Workflow` graph
  model and the `WorkflowEngine.execute` scheduling loop;
* `src/core/tools/tool_processor.py` — the path sandbox of the tool tags;
* `src/providers/failover_manager.py` — provider failover;
* `src/core/nodes/agent_node.py` — the slice of `AgentNode.execute` that
  binds the failover result and increments `iteration_count`.

Python strings are modelled as Lean `String`s, with the handful of string
operations the code uses (`lower`, `in`, `split`, `startswith`, `strip`,
`int(...)`, `os.path.normpath/join/dirname`) re-implemented over `List Char`
so that every definition evaluates by `decide`/`rfl`.  Calls into external
libraries that no claim depends on (`re.search` for the `regex` rule,
`json.loads` for the `json`/`schema` rules, the model-tier manager) are
oracle parameters.  I/O effects (file writes, subprocesses, sleeps) are
recorded as events in explicit traces instead of being performed.
-/

namespace MAO

/-! ### Python string primitives -/

/-- Lowercase one character the way `str.lower` does on ASCII input. -/
def pyLowerChar (c : Char) : Char :=
  if 'A' ≤ c ∧ c ≤ 'Z' then Char.ofNat (c.toNat + 32) else c

/-- `s.lower()` (ASCII). -/
def pyLower (s : String) : String := ⟨s.data.map pyLowerChar⟩

/-- List-level "starts with". -/
def startsWithL : List Char → List Char → Bool
  | _, [] => true
  | [], _ :: _ => false
  | a :: as, b :: bs => a == b && startsWithL as bs

/-- `s.startswith(p)`. -/
def pyStartsWith (s p : String) : Bool := startsWithL s.data p.data

/-- List-level substring containment. -/
def containsSubL (h n : List Char) : Bool :=
  match h with
  | [] => startsWithL [] n
  | _ :: t => startsWithL h n || containsSubL t n

/-- `n in h` on Python strings (substring test). -/
def strContains (h n : String) : Bool := containsSubL h.data n.data

/-- The Python `str.split()` whitespace set. -/
def pyIsSpace (c : Char) : Bool :=
  c = ' ' ∨ c = '\t' ∨ c = '\n' ∨ c = '\r' ∨ c = '\x0b' ∨ c = '\x0c'

/-- `s.split()` — maximal runs of non-whitespace characters. -/
def pySplitWsAux : List Char → List Char → List String
  | [], acc => if acc.isEmpty then [] else [⟨acc.reverse⟩]
  | c :: cs, acc =>
    if pyIsSpace c then
      (if acc.isEmpty then pySplitWsAux cs [] else (⟨acc.reverse⟩ : String) :: pySplitWsAux cs [])
    else pySplitWsAux cs (c :: acc)

def pySplitWs (s : String) : List String := pySplitWsAux s.data []

/-- `len(s.split())`. -/
def pyWordCount (s : String) : Nat := (pySplitWs s).length

/-- `s.strip()`. -/
def pyStrip (s : String) : String :=
  ⟨((s.data.dropWhile pyIsSpace).reverse.dropWhile pyIsSpace).reverse⟩

/-- `int(s)` for a decimal literal: optional surrounding whitespace, optional
sign, then at least one digit; anything else raises `ValueError`,
represented by `none`. -/
def pyIntParse (s : String) : Option Int :=
  let t := pyStrip s
  let digits? (l : List Char) : Option Nat :=
    if l.isEmpty then none
    else if l.all (·.isDigit) then
      some (l.foldl (fun n c => n * 10 + (c.toNat - '0'.toNat)) 0)
    else none
  match t.data with
  | '-' :: rest => (digits? rest).map (fun n => -(n : Int))
  | '+' :: rest => (digits? rest).map (fun n => (n : Int))
  | l => (digits? l).map (fun n => (n : Int))

/-! ### AgreementValidator (src/core/workflow.py, lines 263–341)

The rule `value` field is `Any` in Python; the validator uses it as a string
(`contains`/`not_contains`), as an `int(...)` (`min_words`/`max_words`), or
as a list/dict of keys (`schema`).  `RuleValue` covers those shapes.
The `regex`, `json` and `schema` checks call `re`/`json`; they are
represented by the `PyLibOracle` parameter — no claim depends on them. -/

inductive RuleValue
  | str (v : String)
  | int (v : Int)
  | keys (v : List String)
  | null
deriving DecidableEq, Repr

structure AgreementRule where
  name : String
  type : String := "contains"
  value : RuleValue := .null
  required : Bool := true
deriving DecidableEq, Repr

/-- `int(rule.value)`: succeeds on an int, parses a string, raises otherwise. -/
def ruleValueInt : RuleValue → Option Int
  | .int v => some v
  | .str v => pyIntParse v
  | _ => none

/-- `str(rule.value)` as used by the `contains` checks. -/
def ruleValueStr : RuleValue → String
  | .str v => v
  | .int v => toString v
  | .keys _ => "<list>"
  | .null => "None"

/-- Oracle for the library calls in `_check_rule` (`re.search`,
`json.loads`-based checks). -/
structure PyLibOracle where
  regexSearch : String → String → Bool
  jsonCheck : String → Bool
  schemaCheck : RuleValue → String → Bool

/-- `AgreementValidator._check_rule`.  `none` models an exception escaping
the check (only possible for `min_words`/`max_words` with a non-integer
value). -/
def check_rule (O : PyLibOracle) (output : String) (rule : AgreementRule) : Option Bool :=
  let output_lower := pyLower output
  if rule.type = "contains" then
    some (strContains output_lower (pyLower (ruleValueStr rule.value)))
  else if rule.type = "not_contains" then
    some (!strContains output_lower (pyLower (ruleValueStr rule.value)))
  else if rule.type = "min_words" then
    (ruleValueInt rule.value).map (fun n => decide ((pyWordCount output : Int) ≥ n))
  else if rule.type = "max_words" then
    (ruleValueInt rule.value).map (fun n => decide ((pyWordCount output : Int) ≤ n))
  else if rule.type = "regex" then
    some (O.regexSearch (ruleValueStr rule.value) output)
  else if rule.type = "json" then
    some (O.jsonCheck output)
  else if rule.type = "schema" then
    some (O.schemaCheck rule.value output)
  else
    some true

structure RuleResult where
  passed : Bool
  type : String
  required : Bool
deriving DecidableEq, Repr

structure ValidationResult where
  passed : Bool
  results : List (String × RuleResult)
  failed_required : List String
deriving DecidableEq, Repr

/-- `AgreementValidator.validate`.  `none` models an exception escaping the
loop (a rule check raising). -/
def validate (O : PyLibOracle) (output : String) (rules : List AgreementRule) :
    Option ValidationResult :=
  let checks := rules.map (fun r => (r, check_rule O output r))
  if checks.all (fun p => p.2.isSome) then
    let evald := checks.map (fun p => (p.1, p.2.getD false))
    let failed := (evald.filter (fun p => !p.2 && p.1.required)).map (fun p => p.1.name)
    some {
      passed := failed.length = 0
      results := evald.map (fun p => (p.1.name, ⟨p.2, p.1.type, p.1.required⟩))
      failed_required := failed }
  else none

/-! ### POSIX path model (`os.path.join`, `os.path.normpath`, `os.path.dirname`)

Faithful re-implementations of the CPython `posixpath` routines the tool
processor relies on. -/

/-- `os.path.join(a, b)` for two components. -/
def pyJoin (a b : String) : String :=
  if pyStartsWith b "/" then b
  else if a = "" ∨ a.data.getLast? = some '/' then a ++ b
  else a ++ "/" ++ b

/-- Split a character list on `/`. -/
def splitSlash : List Char → List Char → List String
  | [], acc => [⟨acc.reverse⟩]
  | c :: cs, acc => if c = '/' then (⟨acc.reverse⟩ : String) :: splitSlash cs [] else splitSlash cs (c :: acc)

/-- `os.path.normpath` (POSIX flavour, as in CPython's `posixpath.normpath`). -/
def pyNormpath (p : String) : String :=
  if p = "" then "."
  else
    let initialSlashes : Nat :=
      if pyStartsWith p "/" then
        (if pyStartsWith p "//" ∧ ¬ pyStartsWith p "///" then 2 else 1)
      else 0
    let comps := splitSlash p.data []
    let newComps := comps.foldl (fun (acc : List String) comp =>
      if comp = "" ∨ comp = "." then acc
      else if comp ≠ ".." ∨ (initialSlashes = 0 ∧ acc = []) ∨ acc.getLast? = some ".." then
        acc ++ [comp]
      else if acc ≠ [] then acc.dropLast
      else acc) []
    let joined := String.intercalate "/" newComps
    let out : String := ⟨List.replicate initialSlashes '/' ++ joined.data⟩
    if out = "" then "." else out

/-- `os.path.dirname` (POSIX flavour). -/
def pyDirname (p : String) : String :=
  let d := p.data
  let i := d.length - (d.reverse.takeWhile (· ≠ '/')).length
  let head := d.take i
  if head ≠ [] ∧ ¬ head.all (· = '/') then ⟨(head.reverse.dropWhile (· = '/')).reverse⟩
  else ⟨head⟩

/-! ### ToolProcessor (src/core/tools/tool_processor.py)

The handlers are folds over the list of tag matches found in the agent
output; the regex extraction itself is not modelled — the properties below
quantify over the extracted tag arguments directly.  Filesystem effects are
recorded as `FsOp` events; pre-existing filesystem state (the
`os.path.exists`/`isfile`/`isdir` probes) is the oracle `fs`. -/

/-- `ToolProcessor._safe_path`. -/
def safe_path (base_dir path : String) : Option String :=
  let target := pyNormpath (pyJoin base_dir path)
  if pyStartsWith target base_dir then some target else none

/-- A recorded filesystem side effect. -/
inductive FsOp
  | writeFile (path content : String)
  | appendFile (path content : String)
  | deleteFile (path : String)
  | deleteDir (path : String)
  | makeDirs (path : String)
  | copyTree (src dst : String)
  | moveTree (src dst : String)
deriving DecidableEq, Repr

/-- What `os.path.exists`/`isfile`/`isdir` report for a path. -/
inductive FileKind
  | absent
  | file
  | directory
deriving DecidableEq, Repr

structure ToolResults where
  files_created : List String := []
  files_deleted : List String := []
  dirs_created : List String := []
  commands_run : List String := []
  packages_installed : List String := []
  errors : List String := []
deriving DecidableEq, Repr

structure ToolState where
  results : ToolResults := {}
  fsOps : List FsOp := []
deriving DecidableEq, Repr

/-- `ToolProcessor._clean_content`: strip, drop a leading code-fence line and
a trailing code fence, strip again. -/
def clean_content (content : String) : String :=
  let c := pyStrip content
  let c :=
    if pyStartsWith c "```" then
      let afterTicks := (c.data.drop 3).dropWhile (fun ch => ch.isAlphanum)
      let afterWs := afterTicks.dropWhile (fun ch => ch = ' ' ∨ ch = '\t')
      ⟨match afterWs with
        | '\n' :: rest => rest
        | l => l⟩
    else c
  let c :=
    let r := c.data.reverse
    if startsWithL r "```".data then
      let r := (r.drop 3).dropWhile (fun ch => ch = ' ' ∨ ch = '\t')
      ⟨(match r with
        | '\n' :: rest => rest
        | l => l).reverse⟩
    else c
  pyStrip c

/-- Body of the `<write_file path=…>…</write_file>` match loop
(`_process_write_file`). -/
def process_write_file_tag (base_dir : String) (st : ToolState)
    (tag : String × String) : ToolState :=
  let file_path := tag.1
  let content := clean_content tag.2
  match safe_path base_dir file_path with
  | none =>
    { st with results :=
        { st.results with errors := st.results.errors ++ ["Blocked write: " ++ file_path] } }
  | some target =>
    if content = "" then st
    else
      { st with
        results := { st.results with files_created := st.results.files_created ++ [file_path] }
        fsOps := st.fsOps ++ [.makeDirs (pyDirname target), .writeFile target content] }

/-- Body of the `<append_file …>` match loop (`_process_append_file`). -/
def process_append_file_tag (base_dir : String) (st : ToolState)
    (tag : String × String) : ToolState :=
  let content := pyStrip tag.2
  match safe_path base_dir tag.1 with
  | none => st
  | some target =>
    { st with fsOps := st.fsOps ++ [.makeDirs (pyDirname target), .appendFile target (content ++ "\n")] }

/-- Body of the `<delete_file …/>` match loop (`_process_delete_file`). -/
def process_delete_file_tag (base_dir : String) (fs : String → FileKind)
    (st : ToolState) (file_path : String) : ToolState :=
  match safe_path base_dir file_path with
  | none => st
  | some target =>
    if fs target = .file then
      { st with
        results := { st.results with files_deleted := st.results.files_deleted ++ [file_path] }
        fsOps := st.fsOps ++ [.deleteFile target] }
    else st

/-- Body of the `<delete_dir …/>` match loop (`_process_delete_dir`). -/
def process_delete_dir_tag (base_dir : String) (fs : String → FileKind)
    (st : ToolState) (dir_path : String) : ToolState :=
  match safe_path base_dir dir_path with
  | none => st
  | some target =>
    if fs target = .directory then { st with fsOps := st.fsOps ++ [.deleteDir target] }
    else st

/-- Body of the `<create_dir …/>` match loop (`_process_create_dir`). -/
def process_create_dir_tag (base_dir : String) (st : ToolState)
    (dir_path : String) : ToolState :=
  match safe_path base_dir dir_path with
  | none => st
  | some target =>
    { st with
      results := { st.results with dirs_created := st.results.dirs_created ++ [dir_path] }
      fsOps := st.fsOps ++ [.makeDirs target] }

/-- Body of the `<copy path=… to=…/>` match loop (`_process_copy`). -/
def process_copy_tag (base_dir : String) (st : ToolState)
    (tag : String × String) : ToolState :=
  match safe_path base_dir tag.1, safe_path base_dir tag.2 with
  | some src, some dst =>
    { st with fsOps := st.fsOps ++ [.makeDirs (pyDirname dst), .copyTree src dst] }
  | _, _ => st

/-- Body of the `<move path=… to=…/>` match loop (`_process_move`). -/
def process_move_tag (base_dir : String) (st : ToolState)
    (tag : String × String) : ToolState :=
  match safe_path base_dir tag.1, safe_path base_dir tag.2 with
  | some src, some dst =>
    { st with fsOps := st.fsOps ++ [.makeDirs (pyDirname dst), .moveTree src dst] }
  | _, _ => st

/-- `_process_write_file` over all matches of an output. -/
def process_write_file (base_dir : String) (st : ToolState)
    (tags : List (String × String)) : ToolState :=
  tags.foldl (process_write_file_tag base_dir) st

/-- `_process_append_file` over all matches. -/
def process_append_file (base_dir : String) (st : ToolState)
    (tags : List (String × String)) : ToolState :=
  tags.foldl (process_append_file_tag base_dir) st

/-- `_process_delete_file` over all matches. -/
def process_delete_file (base_dir : String) (fs : String → FileKind)
    (st : ToolState) (tags : List String) : ToolState :=
  tags.foldl (process_delete_file_tag base_dir fs) st

/-- `_process_delete_dir` over all matches. -/
def process_delete_dir (base_dir : String) (fs : String → FileKind)
    (st : ToolState) (tags : List String) : ToolState :=
  tags.foldl (process_delete_dir_tag base_dir fs) st

/-- `_process_copy` over all matches. -/
def process_copy (base_dir : String) (st : ToolState)
    (tags : List (String × String)) : ToolState :=
  tags.foldl (process_copy_tag base_dir) st

/-- `_process_move` over all matches. -/
def process_move (base_dir : String) (st : ToolState)
    (tags : List (String × String)) : ToolState :=
  tags.foldl (process_move_tag base_dir) st

/-- The paths a recorded operation writes, appends, deletes or moves
(`makeDirs` is directory creation, not one of those four). -/
def FsOp.writeLikePaths : FsOp → List String
  | .writeFile p _ => [p]
  | .appendFile p _ => [p]
  | .deleteFile p => [p]
  | .deleteDir p => [p]
  | .makeDirs _ => []
  | .copyTree _ d => [d]
  | .moveTree s d => [s, d]

/-- Every write/append/delete/move target recorded so far lies under
`base_dir` (in the `startswith` sense the code checks). -/
def sandboxed (base_dir : String) (ops : List FsOp) : Prop :=
  ∀ op ∈ ops, ∀ p ∈ op.writeLikePaths, pyStartsWith p base_dir = true

/-! ### FailoverManager (src/providers/failover_manager.py)

Time is modelled by an explicit `now : Int` (seconds); it is held constant
across one `execute_with_failover` run — the only keys whose availability
could change during the run are the ones that failed in it, and those are
excluded by the `attempts` check anyway.  The rolling-latency EMA
(`avg_response_time`, a float) is not modelled; no claim mentions it.
The model-tier consultation (`core/model_tiers.py`) is the oracle `tier`:
`tier cat pid` is the already-split result of
`tier_manager.get_best_available_model`, `none` covering an invalid
category, a `None` result and a result without a colon. -/

inductive FailoverReason
  | rate_limit | timeout | api_error | authentication
  | quota_exceeded | model_unavailable | unknown
deriving DecidableEq, Repr

def FailoverReason.value : FailoverReason → String
  | .rate_limit => "rate_limit"
  | .timeout => "timeout"
  | .api_error => "api_error"
  | .authentication => "authentication"
  | .quota_exceeded => "quota_exceeded"
  | .model_unavailable => "model_unavailable"
  | .unknown => "unknown"

structure ProviderHealth where
  provider_id : String
  provider_type : String
  model : String
  success_count : Nat := 0
  failure_count : Nat := 0
  last_success : Int := 0
  last_failure : Int := 0
  cooldown_until : Int := 0
  priority : Int := 0
deriving DecidableEq, Repr

/-- `ProviderHealth.is_available`. -/
def ProviderHealth.is_available (now : Int) (h : ProviderHealth) : Bool :=
  now > h.cooldown_until

/-- `success_rate` as an exact pair (numerator, denominator); the Python
float is `success/total`, or `1.0` when there was no request yet. -/
def ProviderHealth.rate (h : ProviderHealth) : Nat × Nat :=
  let total := h.success_count + h.failure_count
  if total > 0 then (h.success_count, total) else (1, 1)

/-- `ProviderHealth.record_success` (latency EMA omitted). -/
def ProviderHealth.record_success (now : Int) (h : ProviderHealth) : ProviderHealth :=
  { h with success_count := h.success_count + 1, last_success := now }

/-- The per-reason cooldown map in `ProviderHealth.record_failure`. -/
def cooldownSeconds : FailoverReason → Int
  | .rate_limit => 300
  | .quota_exceeded => 3600
  | .timeout => 60
  | .api_error => 120
  | .authentication => 0
  | .model_unavailable => 600
  | .unknown => 60

/-- `ProviderHealth.record_failure`. -/
def ProviderHealth.record_failure (now : Int) (reason : FailoverReason)
    (h : ProviderHealth) : ProviderHealth :=
  { h with
    failure_count := h.failure_count + 1
    last_failure := now
    cooldown_until := now + cooldownSeconds reason }

structure FailoverConfig where
  enabled : Bool := true
  max_retries : Nat := 3
  retry_delay : Nat := 1
  model_groups : List (String × List String) := [
    ("high_capability", ["opus", "claude-opus", "gpt-4", "gemini-1.5-pro",
      "llama-3.3-70b-versatile", "deepseek-r1"]),
    ("balanced", ["sonnet", "claude-sonnet", "gpt-4-turbo", "gemini-1.5-flash",
      "llama3-8b-8192", "mistral", "llama3"]),
    ("fast", ["haiku", "claude-haiku", "gpt-3.5-turbo", "gemini-2.0-flash",
      "phi3", "mixtral-8x7b-32768"])]
deriving DecidableEq, Repr

/-- `FailoverConfig()` with its field defaults. -/
def defaultFailoverConfig : FailoverConfig := {}

/-- Insertion-ordered dict lookup. -/
def alGet {α : Type} (l : List (String × α)) (k : String) : Option α :=
  (l.find? (fun p => p.1 = k)).map (·.2)

/-- Insertion-ordered dict assignment: update in place, else append. -/
def alSet {α : Type} (l : List (String × α)) (k : String) (v : α) : List (String × α) :=
  if l.any (fun p => p.1 = k) then l.map (fun p => if p.1 = k then (k, v) else p)
  else l ++ [(k, v)]

structure FoManager where
  config : FailoverConfig := {}
  providers : List (String × ProviderHealth) := []
  fallback_chains : List (String × List (String × String)) := []
deriving DecidableEq, Repr

/-- `FailoverManager.register_provider`. -/
def register_provider (m : FoManager) (provider_id provider_type : String)
    (models : List String) (priority : Int) : FoManager :=
  models.foldl (fun m model =>
    let h : ProviderHealth :=
      { provider_id := provider_id, provider_type := provider_type,
        model := model, priority := priority }
    { m with providers := alSet m.providers (provider_id ++ "/" ++ model) h }) m

/-- `FailoverManager.set_fallback_chain`. -/
def set_fallback_chain (m : FoManager) (provider_id model : String)
    (fallbacks : List (String × String)) : FoManager :=
  { m with fallback_chains :=
      alSet m.fallback_chains (provider_id ++ "/" ++ model) fallbacks }

/-- `FailoverManager.detect_failure_reason`. -/
def detect_failure_reason (error : String) : FailoverReason :=
  let e := pyLower error
  if ["rate limit", "too many requests", "429", "throttl"].any (strContains e) then .rate_limit
  else if ["timeout", "timed out"].any (strContains e) then .timeout
  else if ["quota", "exceeded", "limit exceeded"].any (strContains e) then .quota_exceeded
  else if ["auth", "unauthorized", "401", "403", "api key"].any (strContains e) then .authentication
  else if ["not found", "404", "unavailable", "does not exist"].any (strContains e) then .model_unavailable
  else if ["error", "500", "502", "503"].any (strContains e) then .api_error
  else .unknown

/-- `self.providers.get(key, ProviderHealth("", "", ""))` as used by the
candidate sort keys. -/
def healthOrDefault (m : FoManager) (key : String) : ProviderHealth :=
  (alGet m.providers key).getD { provider_id := "", provider_type := "", model := "" }

/-- Stable insertion: place `x` after every element `y` with `le y x`. -/
def stableInsert {α : Type} (le : α → α → Bool) (x : α) : List α → List α
  | [] => [x]
  | y :: ys => if le y x then y :: stableInsert le x ys else x :: y :: ys

/-- A stable sort (Python `list.sort`) for a total boolean preorder. -/
def stableSort {α : Type} (le : α → α → Bool) (l : List α) : List α :=
  l.foldl (fun acc x => stableInsert le x acc) []

/-- The `(priority, -success_rate)` sort key comparison (rates compared by
cross-multiplication, so no floats are needed). -/
def candidateLE (m : FoManager) (a b : String × String) : Bool :=
  let ha := healthOrDefault m (a.1 ++ "/" ++ a.2)
  let hb := healthOrDefault m (b.1 ++ "/" ++ b.2)
  ha.priority < hb.priority ∨
    (ha.priority = hb.priority ∧ ha.rate.1 * hb.rate.2 ≥ hb.rate.1 * ha.rate.2)

/-- `FailoverManager._get_fallback_candidates`. -/
def get_fallback_candidates (tier : String → String → Option (String × String))
    (now : Int) (m : FoManager) (provider_id model : String)
    (task_category : Option String) : List (String × String) :=
  let key := provider_id ++ "/" ++ model
  match alGet m.fallback_chains key with
  | some chain => chain
  | none =>
    let tierRes : Option (List (String × String)) :=
      match task_category with
      | some cat =>
        match tier cat provider_id with
        | some (fp, fm) =>
          if fp ≠ provider_id ∨ fm ≠ model then some [(fp, fm)] else none
        | none => none
      | none => none
    match tierRes with
    | some l => l
    | none =>
      let model_group := m.config.model_groups.find?
        (fun g => (g.2.map pyLower).contains (pyLower model))
      let candidates :=
        match model_group with
        | some g => m.providers.filterMap (fun (p : String × ProviderHealth) =>
            if p.1 = key then none
            else if ¬ p.2.is_available now then none
            else if (g.2.map pyLower).contains (pyLower p.2.model) then
              some (p.2.provider_id, p.2.model)
            else none)
        | none => []
      let candidates := stableSort (candidateLE m) candidates
      if candidates.isEmpty then
        stableSort
          (fun a b => (healthOrDefault m (a.1 ++ "/" ++ a.2)).priority ≤
            (healthOrDefault m (b.1 ++ "/" ++ b.2)).priority)
          (m.providers.filterMap (fun (p : String × ProviderHealth) =>
            if p.1 = key ∨ ¬ p.2.is_available now then none
            else some (p.2.provider_id, p.2.model)))
      else candidates

/-- Behaviour of one `task(provider, model)` call: a returned value or a
raised exception (carried as its `str(e)`). -/
inductive TaskRes
  | val (s : String)
  | exn (e : String)
deriving DecidableEq, Repr

/-- Observable events of one `execute_with_failover` run. -/
inductive FoEvent
  | call (provider model : String)
  | sleepRetry (delay : Nat)
  | failoverCb (oldP oldM newP newM reason : String)
deriving DecidableEq, Repr

inductive FoResult
  | success (result provider model : String)
  | exhausted (error_msg provider model : String)
deriving DecidableEq, Repr

/-- Either a normal return or an exception escaping to the caller (only
possible on the `enabled = false` fast path, which calls `task` outside the
try/except). -/
inductive FoOutcome
  | returned (m : FoManager) (trace : List FoEvent) (res : FoResult)
  | raised (e : String)
deriving DecidableEq, Repr

/-- The failure branch of one retry-loop iteration: classify the error,
record the failure, pick the next untried available fallback.  Returns the
final result (no fallback: the loop breaks) or the state for the next
iteration. -/
def foFailStep (tier : String → String → Option (String × String)) (now : Int)
    (task_category : Option String) (m : FoManager) (trace : List FoEvent)
    (attempts : List (String × String)) (current : String × String) (err : String) :
    (FoManager × List FoEvent × FoResult) ⊕
      (FoManager × List FoEvent × List (String × String)) :=
  let ckey := current.1 ++ "/" ++ current.2
  let reason := detect_failure_reason err
  let m := match alGet m.providers ckey with
    | some h => { m with providers := alSet m.providers ckey (h.record_failure now reason) }
    | none => m
  let fallbacks := get_fallback_candidates tier now m current.1 current.2 task_category
  let next? := fallbacks.find? (fun fb =>
    let fk := fb.1 ++ "/" ++ fb.2
    !(attempts.any (fun a => a.1 ++ "/" ++ a.2 = fk)) &&
      (match alGet m.providers fk with
        | some h => h.is_available now
        | none => false))
  match next? with
  | some nb =>
    .inr (m, trace ++ [.failoverCb current.1 current.2 nb.1 nb.2 reason.value,
      .sleepRetry m.config.retry_delay], attempts ++ [nb])
  | none =>
    .inl (m, trace, .exhausted
      ("All failover attempts exhausted. Last error: " ++ err)
      current.1 current.2)

/-- The retry loop of `execute_with_failover` (`for attempt in
range(max_retries + 1)`); `fuel` is the number of remaining iterations. -/
def foLoop (tier : String → String → Option (String × String)) (now : Int)
    (task : String → String → TaskRes) (task_category : Option String) :
    Nat → FoManager → List FoEvent → List (String × String) → Option String →
      FoManager × List FoEvent × FoResult
  | 0, m, trace, attempts, lastError =>
    let last := attempts.getLastD ("", "")
    (m, trace, .exhausted
      ("All failover attempts exhausted. Last error: " ++ lastError.getD "None")
      last.1 last.2)
  | fuel + 1, m, trace, attempts, _lastError =>
    let current := attempts.getLastD ("", "")
    let ckey := current.1 ++ "/" ++ current.2
    let trace := trace ++ [.call current.1 current.2]
    let continueWith (err : String) : FoManager × List FoEvent × FoResult :=
      match foFailStep tier now task_category m trace attempts current err with
      | .inl final => final
      | .inr (m', trace', attempts') =>
        foLoop tier now task task_category fuel m' trace' attempts' (some err)
    match task current.1 current.2 with
    | .val s =>
      if pyStartsWith s "Error:" then continueWith s
      else
        let m := match alGet m.providers ckey with
          | some h => { m with providers := alSet m.providers ckey (h.record_success now) }
          | none => m
        (m, trace, .success s current.1 current.2)
    | .exn e => continueWith e

/-- `FailoverManager.execute_with_failover`. -/
def execute_with_failover (tier : String → String → Option (String × String))
    (now : Int) (m : FoManager) (provider_id model : String)
    (task : String → String → TaskRes) (task_category : Option String) : FoOutcome :=
  if ¬ m.config.enabled then
    match task provider_id model with
    | .val s => .returned m [] (.success s provider_id model)
    | .exn e => .raised e
  else
    let (m', trace, res) :=
      foLoop tier now task task_category (m.config.max_retries + 1) m []
        [(provider_id, model)] none
    .returned m' trace res

/-! ### Workflow graph model (src/core/workflow.py, lines 21–260) -/

inductive NodeStatus
  | idle | queued | running | complete | failed | skipped
  | waiting_for_approval | paused
deriving DecidableEq, Repr

inductive NodeType
  | agent | auditor | input | output | router | character | director | optimizer
  | script | memory | github | huggingface | http | openapi | notion | rag
  | google | mcp | comfy | architect | critic | telegram_trigger
  | discord_trigger | browser | shell | system | a2ui | discovery
deriving DecidableEq, Repr

/-- The node kinds whose registry executor is `AgentNode` — the only
executor that increments `iteration_count`
(src/core/nodes/registry.py, line 70; src/core/nodes/agent_node.py, line 40;
`optimizer` is re-registered to `AgentNode` by the loop). -/
def agentFamily : List NodeType :=
  [.agent, .auditor, .router, .character, .director, .optimizer, .architect, .critic]

/-- `WorkflowNode`, restricted to the fields the engine loop reads or
writes.  Prompt/provider configuration feeds only the executor, which is
the behaviour oracle here; `sub_workflows` is empty (no claim concerns
child engines). -/
structure WorkflowNode where
  id : String
  name : String
  type : NodeType := .agent
  requires_approval : Bool := false
  status : NodeStatus := .idle
  output : Option String := none
  error : Option String := none
  max_iterations : Nat := 1
  iteration_count : Nat := 0
deriving DecidableEq, Repr

structure WorkflowEdge where
  source_id : String
  target_id : String
  feedback : Bool := false
deriving DecidableEq, Repr

/-- `Workflow`: `nodes` is the insertion-ordered id → node dict. -/
structure Workflow where
  nodes : List WorkflowNode
  edges : List WorkflowEdge
deriving DecidableEq, Repr

/-- `Workflow.get_entry_nodes`: node ids that are the target of no edge —
note that feedback edges are NOT excluded here. -/
def Workflow.get_entry_nodes (w : Workflow) : List String :=
  let targets := w.edges.map (·.target_id)
  (w.nodes.filter (fun n => ¬ targets.contains n.id)).map (·.id)

/-- `Workflow.get_successors`. -/
def get_successors (edges : List WorkflowEdge) (node_id : String) : List String :=
  (edges.filter (fun e => e.source_id = node_id)).map (·.target_id)

/-- `Workflow.get_predecessors`. -/
def get_predecessors (edges : List WorkflowEdge) (node_id : String) : List String :=
  (edges.filter (fun e => e.target_id = node_id)).map (·.source_id)

/-! ### Dynamic-dispatch tag parsing (`_process_dispatch_tags`)

A direct scanner for the two regexes
`<dispatch_task\s+node=["'](.*?)["'](?:\s+input=["'](.*?)["'])?>(.*?)</dispatch_task>`
and `<sleep\s+duration=["'](.*?)["']\s*/>`: leftmost match, shortest
capture up to the closing delimiter. -/

def isQuoteChar (c : Char) : Bool := c = '"' ∨ c = '\''

/-- Capture characters up to (and consuming) the first quote character. -/
def captureToQuote : List Char → Option (List Char × List Char)
  | [] => none
  | c :: cs =>
    if isQuoteChar c then some ([], cs)
    else (captureToQuote cs).map (fun p => (c :: p.1, p.2))

/-- Capture characters up to (and consuming) the first occurrence of
`stop`; `fuel` bounds the scan. -/
def captureUntil (stop : List Char) : Nat → List Char → Option (List Char × List Char)
  | fuel, l =>
    if startsWithL l stop then some ([], l.drop stop.length)
    else
      match fuel, l with
      | _, [] => none
      | 0, _ => none
      | f + 1, c :: cs => (captureUntil stop f cs).map (fun p => (c :: p.1, p.2))

/-- Match the remainder of a `<sleep …/>` tag, given the text following the
literal `<sleep`. -/
def parseSleepAt (l : List Char) : Option (String × List Char) :=
  match l with
  | c :: cs =>
    if ¬ pyIsSpace c then none
    else
      let l := cs.dropWhile pyIsSpace
      if ¬ startsWithL l "duration=".data then none
      else
        match l.drop 9 with
        | q :: rest =>
          if ¬ isQuoteChar q then none
          else
            match captureToQuote rest with
            | some (cap, rest₂) =>
              let rest₃ := rest₂.dropWhile pyIsSpace
              if startsWithL rest₃ "/>".data then some (⟨cap⟩, rest₃.drop 2) else none
            | none => none
        | [] => none
  | [] => none

def parseSleepTagsAux : Nat → List Char → List String
  | 0, _ => []
  | _ + 1, [] => []
  | fuel + 1, c :: cs =>
    if startsWithL (c :: cs) "<sleep".data then
      match parseSleepAt ((c :: cs).drop 6) with
      | some (d, rest) => d :: parseSleepTagsAux fuel rest
      | none => parseSleepTagsAux fuel cs
    else parseSleepTagsAux fuel cs

/-- All `<sleep duration=…/>` captures of a text, in order. -/
def parseSleepTags (s : String) : List String :=
  parseSleepTagsAux s.data.length s.data

/-- Match the remainder of a `<dispatch_task …>…</dispatch_task>` tag, given
the text following the literal `<dispatch_task`.  Returns
(node, input attribute or "", body). -/
def parseDispatchAt (l : List Char) : Option ((String × String × String) × List Char) :=
  match l with
  | c :: cs =>
    if ¬ pyIsSpace c then none
    else
      let l := cs.dropWhile pyIsSpace
      if ¬ startsWithL l "node=".data then none
      else
        match l.drop 5 with
        | q :: rest =>
          if ¬ isQuoteChar q then none
          else
            match captureToQuote rest with
            | some (node, rest₂) =>
              let withInput : Option (String × List Char) :=
                match rest₂ with
                | w :: ws =>
                  if ¬ pyIsSpace w then none
                  else
                    let l₂ := ws.dropWhile pyIsSpace
                    if ¬ startsWithL l₂ "input=".data then none
                    else
                      match l₂.drop 6 with
                      | q₂ :: rest₃ =>
                        if ¬ isQuoteChar q₂ then none
                        else (captureToQuote rest₃).map (fun p => ((⟨p.1⟩ : String), p.2))
                      | [] => none
                | [] => none
              let (inputAttr, rest₄) :=
                match withInput with
                | some (i, r) => (i, r)
                | none => ("", rest₂)
              match rest₄ with
              | '>' :: body =>
                (captureUntil "</dispatch_task>".data body.length body).map
                  (fun p => ((⟨node⟩, inputAttr, (⟨p.1⟩ : String)), p.2))
              | _ => none
            | none => none
        | [] => none
  | [] => none

def parseDispatchTagsAux : Nat → List Char → List (String × String × String)
  | 0, _ => []
  | _ + 1, [] => []
  | fuel + 1, c :: cs =>
    if startsWithL (c :: cs) "<dispatch_task".data then
      match parseDispatchAt ((c :: cs).drop 14) with
      | some (t, rest) => t :: parseDispatchTagsAux fuel rest
      | none => parseDispatchTagsAux fuel cs
    else parseDispatchTagsAux fuel cs

/-- All `<dispatch_task …>…</dispatch_task>` captures of a text, in order. -/
def parseDispatchTags (s : String) : List (String × String × String) :=
  parseDispatchTagsAux s.data.length s.data

/-- A parsed dynamic instruction (`WorkflowEngine._process_dispatch_tags`). -/
inductive DynInstr
  | dispatch (target input source : String)
  | sleep (duration : String)
deriving DecidableEq, Repr

/-- `WorkflowEngine._process_dispatch_tags`: all dispatch instructions, then
all sleep instructions. -/
def process_dispatch_tags (text : String) (current_node_id : String) : List DynInstr :=
  ((parseDispatchTags text).map (fun t =>
    let input_attr := t.2.1
    let content := pyStrip t.2.2
    let final_input :=
      if content ≠ "" then
        (if input_attr = "" then content else input_attr ++ "\n" ++ content)
      else input_attr
    DynInstr.dispatch t.1 final_input current_node_id)) ++
  (parseSleepTags text).map DynInstr.sleep

/-! ### WorkflowEngine.execute (src/core/workflow.py, lines 442–895)

The executor dispatched to for a node (`_execute_node` →
`__inner_execute_node` → registry executor / `AgentNode`) is the behaviour
oracle `beh : node id → number of previous invocations → ExecBehavior`; it
can return a result, return a failure, or raise.  The `check_intervention`
callback is the oracle `interv : node id → number of previous polls →
Option String`.

I/O that no claim concerns is not modelled: session folders and log files,
the traffic-controller slot around `_execute_node`, the blackboard-tag
extraction (`blackboard` stays empty: nothing in the claims reads it), the
`save_path` write of OUTPUT nodes, and the model-override/persona assembly
(they only shape the prompt handed to the executor oracle).  Every status
assignment, executor invocation, queue append, routing decision and sleep
is recorded in the trace. -/

inductive ExecBehavior
  | ok (output : String)
  | fail (error : String)
  | exn (error : String)
deriving DecidableEq, Repr

inductive TraceEvent
  | invoke (id : String) (completed : List String)
  | setStatus (id : String) (status : NodeStatus)
  | enqueue (id : String)
  | route (id : String) (queued : List String)
  | skipMaxIter (id : String)
  | sleepDyn (seconds : Int)
  | noProgressSleep
deriving DecidableEq, Repr

structure EngineState where
  nodes : List WorkflowNode
  completed : List String
  outputs : List (String × String)
  queue : List String
  polls : List (String × Nat) := []
  history : Nat := 0
  trace : List TraceEvent := []
deriving DecidableEq, Repr

def getNode (st : EngineState) (id : String) : Option WorkflowNode :=
  st.nodes.find? (fun n => n.id = id)

def mapNode (st : EngineState) (id : String) (f : WorkflowNode → WorkflowNode) : EngineState :=
  { st with nodes := st.nodes.map (fun n => if n.id = id then f n else n) }

def pushTrace (st : EngineState) (e : TraceEvent) : EngineState :=
  { st with trace := st.trace ++ [e] }

/-- A `node.status = …` assignment, recorded in the trace. -/
def setStatus (st : EngineState) (id : String) (s : NodeStatus) : EngineState :=
  pushTrace (mapNode st id (fun n => { n with status := s })) (.setStatus id s)

def setNodeOutput (st : EngineState) (id : String) (o : Option String) : EngineState :=
  mapNode st id (fun n => { n with output := o })

def setNodeError (st : EngineState) (id : String) (e : Option String) : EngineState :=
  mapNode st id (fun n => { n with error := e })

/-- `completed.add(id)` (a Python set add). -/
def addCompleted (st : EngineState) (id : String) : EngineState :=
  if st.completed.contains id then st else { st with completed := st.completed ++ [id] }

/-- `completed.remove(id)` guarded by membership. -/
def removeCompleted (st : EngineState) (id : String) : EngineState :=
  { st with completed := st.completed.filter (fun c => c ≠ id) }

def setOutputsKey (st : EngineState) (k v : String) : EngineState :=
  { st with outputs := alSet st.outputs k v }

/-- `queue.append(id)`, recorded in the trace. -/
def enqueue (st : EngineState) (id : String) : EngineState :=
  pushTrace { st with queue := st.queue ++ [id] } (.enqueue id)

/-- Number of executor invocations of `id` recorded so far — the index fed
to the behaviour oracle. -/
def invokeCount (tr : List TraceEvent) (id : String) : Nat :=
  tr.countP (fun e => match e with | .invoke i _ => i == id | _ => false)

abbrev NodeBeh := String → Nat → ExecBehavior
abbrev IntervBeh := String → Nat → Option String

structure ExecResult where
  success : Bool
  output : Option String := none
  error : Option String := none
deriving DecidableEq, Repr

inductive InnerOut
  | res (r : ExecResult)
  | raisedExec (e : String)
deriving DecidableEq, Repr

/-- `WorkflowEngine.__inner_execute_node`: INPUT and OUTPUT nodes are
handled inline; every other kind goes to its registry executor (the
behaviour oracle), with `AgentNode` (the agent-family kinds) incrementing
`iteration_count` first. -/
def inner_execute_node (beh : NodeBeh) (st : EngineState) (n : WorkflowNode)
    (input_text ctx : String) : EngineState × InnerOut :=
  let k := invokeCount st.trace n.id
  let st := pushTrace st (.invoke n.id st.completed)
  if n.type = .output then
    let out := if ctx ≠ "" then ctx else input_text
    let out := if out = "" then "No Content" else out
    (st, .res { success := true, output := some out })
  else if n.type = .input then
    (st, .res { success := true, output := some input_text })
  else
    let st :=
      if agentFamily.contains n.type then
        mapNode st n.id (fun m => { m with iteration_count := m.iteration_count + 1 })
      else st
    match beh n.id k with
    | .ok s => (st, .res { success := true, output := some s })
    | .fail e => (st, .res { success := false, error := some e })
    | .exn e => (st, .raisedExec e)

/-- `WorkflowEngine._execute_node`: sets the node running, runs the inner
logic, and converts a raised exception into
`{"success": False, "error": str(e)}` (its try/except). -/
def execute_node (beh : NodeBeh) (st : EngineState) (nid : String)
    (input_text ctx : String) : EngineState × ExecResult :=
  let st := setStatus st nid .running
  match getNode st nid with
  | none => (st, { success := false, error := some "node missing" })
  | some n =>
    match inner_execute_node beh st n input_text ctx with
    | (st', .res r) => (st', r)
    | (st', .raisedExec e) => (st', { success := false, error := some e })

/-- The context built for an admitted node (story history of completed
director/character/auditor outputs, then all predecessor outputs). -/
def buildContext (st : EngineState) (edges : List WorkflowEdge) (nid : String) : String :=
  let predecessors := get_predecessors edges nid
  let story_history := st.outputs.filterMap (fun p =>
    if p.1 = "__input__" then none
    else
      match getNode st p.1 with
      | none => none
      | some n =>
        if (n.type = .director ∨ n.type = .character ∨ n.type = .auditor) ∧
            st.completed.contains p.1 then
          some ("[" ++ n.name ++ "]: " ++ p.2)
        else none)
  let context_parts :=
    (if story_history ≠ ([] : List String) then
      ["=== SHARED STORY HISTORY ===\n" ++
        String.intercalate "\n\n" (story_history.drop (story_history.length - 5)) ++
        "\n=============================="]
    else []) ++
    predecessors.map (fun p =>
      "[" ++ (((getNode st p).map (·.name)).getD "") ++ "]: " ++ ((alGet st.outputs p).getD ""))
  if predecessors ≠ [] then String.intercalate "\n\n" context_parts
  else (alGet st.outputs "__input__").getD ""

/-- The rejection markers of the auditor feedback-edge branch. -/
def rejectionMarkers : List String :=
  ["incomplete", "code_incomplete", "gdd_incomplete", "needs_rework", "rejected",
   "failed validation", "placeholder detected", "not valid"]

/-- The approval markers of the auditor forward-edge branch. -/
def approvalMarkers : List String :=
  ["validated", "valid", "approved", "complete", "ready", "gold_standard",
   "acceptable", "passed"]

/-- One edge of the successor-queueing loop run after a node completes
(src/core/workflow.py, lines 828–856): skip edges from other sources and
targets already completed or queued, then fire by node kind and marker. -/
def route_step (ntype : NodeType) (output_lower : String) (nid : String)
    (completed : List String) (acc : List String × List String)
    (edge : WorkflowEdge) : List String × List String :=
  if edge.source_id ≠ nid then acc
  else if completed.contains edge.target_id ∨ acc.1.contains edge.target_id then acc
  else if ntype = .auditor ∧ edge.feedback then
    (if rejectionMarkers.any (fun p => strContains output_lower p) then
      (acc.1 ++ [edge.target_id], acc.2 ++ [edge.target_id])
    else acc)
  else if ntype = .auditor ∧ ¬ edge.feedback then
    (if approvalMarkers.any (fun p => strContains output_lower p) then
      (acc.1 ++ [edge.target_id], acc.2 ++ [edge.target_id])
    else acc)
  else (acc.1 ++ [edge.target_id], acc.2 ++ [edge.target_id])

/-- The successor-queueing loop run after a node completes.  Returns the
new queue and the list of newly appended targets. -/
def route_successors (ntype : NodeType) (output_lower : String) (nid : String)
    (edges : List WorkflowEdge) (completed : List String) (queue : List String) :
    List String × List String :=
  edges.foldl (route_step ntype output_lower nid completed) (queue, [])

/-- One dynamic instruction of the dispatch block (src/core/workflow.py,
lines 776–821).  The second component is `some e` when the Python code
raises (the `int(...)` of a malformed sleep duration — this happens outside
the per-node try/except). -/
def applyDynInstr (st : EngineState) : DynInstr → EngineState × Option String
  | .sleep d =>
    let seconds? : Option Int :=
      if d.data.contains 's' then pyIntParse ⟨d.data.filter (fun c => c ≠ 's')⟩
      else if d.data.contains 'm' then
        (pyIntParse ⟨d.data.filter (fun c => c ≠ 'm')⟩).map (· * 60)
      else if d.data.contains 'h' then
        (pyIntParse ⟨d.data.filter (fun c => c ≠ 'h')⟩).map (· * 3600)
      else pyIntParse d
    match seconds? with
    | some n => (pushTrace st (.sleepDyn n), none)
    | none => (st, some ("invalid literal for int() with base 10: " ++ d))
  | .dispatch target inp _src =>
    match st.nodes.find? (fun n => n.name = target ∨ n.id = target) with
    | some tn =>
      let st := setStatus st tn.id .idle
      let st := removeCompleted st tn.id
      let st := setOutputsKey st tn.id inp
      let st := setOutputsKey st ("__dispatch_" ++ tn.id ++ "__") inp
      (if st.queue.contains tn.id then st else enqueue st tn.id, none)
    | none => (st, none)

def applyDynList (st : EngineState) : List DynInstr → EngineState × Option String
  | [] => (st, none)
  | i :: rest =>
    match applyDynInstr st i with
    | (st', none) => applyDynList st' rest
    | (st', some e) => (st', some e)

inductive StepOut
  | cont (st : EngineState) (progress : Bool)
  | raised (st : EngineState) (e : String)
deriving DecidableEq, Repr

/-- Everything after `_execute_node` returns for an admitted node that is
not waiting for approval: status/output/error update, `completed.add`,
dynamic dispatch, conditional routing, snapshot. -/
def afterExec (edges : List WorkflowEdge) (st : EngineState) (result : ExecResult)
    (nid : String) : StepOut :=
  let st := addCompleted st nid
  let (st, raised?) :=
    if result.success ∧ result.output.getD "" ≠ "" then
      applyDynList st (process_dispatch_tags (result.output.getD "") nid)
    else (st, none)
  match raised? with
  | some e => .raised st e
  | none =>
    match getNode st nid with
    | none => .cont { st with history := st.history + 1 } true
    | some n =>
      let output_lower := pyLower (n.output.getD "")
      let st :=
        if n.status = .complete then
          let r := route_successors n.type output_lower nid edges st.completed st.queue
          pushTrace { st with queue := r.1 } (.route nid r.2)
        else st
      .cont { st with history := st.history + 1 } true

/-- The admitted-node step: build the context, execute, and apply the
result (approval gate / complete / failed), then `afterExec`. -/
def processAdmitted (beh : NodeBeh) (edges : List WorkflowEdge) (input_text : String)
    (st : EngineState) (n : WorkflowNode) : StepOut :=
  let ctx := buildContext st edges n.id
  let p := execute_node beh st n.id input_text ctx
  let st := p.1
  let result := p.2
  if result.success then
    if n.requires_approval then
      let out := result.output.getD ""
      let st := setStatus st n.id .waiting_for_approval
      let st := setNodeOutput st n.id (some out)
      let st := setOutputsKey st n.id out
      .cont (enqueue st n.id) true
    else
      let out := result.output.getD ""
      let st := setStatus st n.id .complete
      let st := setNodeOutput st n.id (some out)
      let st := setOutputsKey st n.id out
      afterExec edges st result n.id
  else
    let st := setStatus st n.id .failed
    let st := setNodeError st n.id (some (result.error.getD "Unknown error"))
    afterExec edges st result n.id

/-- The readiness check, the approval poll and the admitted step — the body
of the dequeue loop after the recycling check. -/
def processReady (beh : NodeBeh) (interv : IntervBeh) (edges : List WorkflowEdge)
    (input_text : String) (st : EngineState) (nid : String) : StepOut :=
  match getNode st nid with
  | none => .cont st false
  | some node =>
    let required :=
      ((edges.filter (fun e => e.target_id = nid ∧ ¬ e.feedback)).map (·.source_id))
    if ¬ required.all (fun p => st.completed.contains p) then
      .cont (enqueue st nid) false
    else if node.status = .waiting_for_approval then
      let k := (alGet st.polls nid).getD 0
      let st := { st with polls := alSet st.polls nid (k + 1) }
      match interv nid k with
      | some "APPROVE" =>
        let st := setStatus st nid .complete
        let st := addCompleted st nid
        let st := (get_successors edges nid).foldl (fun st succ =>
          if st.completed.contains succ ∨ st.queue.contains succ then st
          else enqueue st succ) st
        .cont st true
      | some "REJECT" => .cont (setStatus st nid .failed) false
      | _ => .cont (enqueue st nid) false
    else
      processAdmitted beh edges input_text st node

/-- One dequeued node (the body of the `for _ in range(queue_size)` loop):
missing-node skip, the complete-node recycling check, then `processReady`. -/
def processNode (beh : NodeBeh) (interv : IntervBeh) (edges : List WorkflowEdge)
    (input_text : String) (st : EngineState) (nid : String) : StepOut :=
  match getNode st nid with
  | none => .cont st false
  | some node =>
    if node.status = .complete then
      if node.iteration_count < node.max_iterations then
        let st := setNodeOutput (setStatus st nid .idle) nid none
        processReady beh interv edges input_text st nid
      else .cont (pushTrace st (.skipMaxIter nid)) false
    else processReady beh interv edges input_text st nid

inductive PassOut
  | ok (st : EngineState) (progress : Bool)
  | raised (st : EngineState) (e : String)
deriving DecidableEq, Repr

/-- One pass over the queue: dequeue up to the pass's initial queue size
many nodes. -/
def passIter (beh : NodeBeh) (interv : IntervBeh) (edges : List WorkflowEdge)
    (input_text : String) : Nat → EngineState → Bool → PassOut
  | 0, st, prog => .ok st prog
  | k + 1, st, prog =>
    match st.queue with
    | [] => .ok st prog
    | nid :: rest =>
      match processNode beh interv edges input_text { st with queue := rest } nid with
      | .cont st' p => passIter beh interv edges input_text k st' (prog || p)
      | .raised st' e => .raised st' e

structure NodeOut where
  status : NodeStatus
  output : Option String
  error : Option String
deriving DecidableEq, Repr

/-- The dict `execute` returns. -/
structure RunResult where
  success : Bool
  outputs : List (String × String)
  nodesOut : List (String × NodeOut)
deriving DecidableEq, Repr

def mkResult (st : EngineState) : RunResult :=
  { success := st.nodes.all (fun n => n.status = .complete)
    outputs := st.outputs
    nodesOut := st.nodes.map (fun n => (n.id, ⟨n.status, n.output, n.error⟩)) }

inductive RunOutcome
  | done (st : EngineState) (res : RunResult)
  | raised (st : EngineState) (e : String)
  | fuelOut (st : EngineState)
deriving DecidableEq, Repr

/-- The `while queue:` loop; `fuel` bounds the number of passes
(`.fuelOut` = the bound was hit with the queue still non-empty). -/
def runLoop (beh : NodeBeh) (interv : IntervBeh) (edges : List WorkflowEdge)
    (input_text : String) : Nat → EngineState → RunOutcome
  | 0, st => .fuelOut st
  | fuel + 1, st =>
    match st.queue with
    | [] => .done st (mkResult st)
    | _ :: _ =>
      match passIter beh interv edges input_text st.queue.length st false with
      | .raised st' e => .raised st' e
      | .ok st' prog =>
        let st' :=
          if ¬ prog ∧ st'.queue ≠ [] then pushTrace st' .noProgressSleep else st'
        runLoop beh interv edges input_text fuel st'

/-- The state set up by `execute` before the loop: node reset (when not
resuming), `completed`/`outputs` preload, and queue seeding. -/
def initState (w : Workflow) (initial_input : String) (resume : Bool) : EngineState :=
  let nodes :=
    if resume then w.nodes
    else w.nodes.map (fun n => { n with status := .idle, output := none, error := none })
  let completed := (nodes.filter (fun n => n.status = .complete)).map (·.id)
  let outputs := ("__input__", initial_input) ::
    nodes.filterMap (fun n => n.output.bind (fun o => if o = "" then none else some (n.id, o)))
  let queue : List String :=
    if resume then
      let q := nodes.foldl (fun q n =>
        if n.status = .waiting_for_approval then q ++ [n.id]
        else if n.status = .idle then
          (let preds := get_predecessors w.edges n.id
           if preds ≠ [] ∧ preds.all (fun p => completed.contains p) then q ++ [n.id] else q)
        else q) []
      if q = [] then
        completed.foldl (fun q c =>
          (get_successors w.edges c).foldl (fun q succ =>
            let idleSucc : Bool :=
              match nodes.find? (fun n => n.id = succ) with
              | some sn => sn.status = .idle
              | none => false
            if idleSucc && !(q.contains succ) then q ++ [succ] else q) q) []
      else q
    else w.get_entry_nodes
  { nodes := nodes, completed := completed, outputs := outputs, queue := queue }

/-- `WorkflowEngine.execute`. -/
def execute (w : Workflow) (beh : NodeBeh) (interv : IntervBeh)
    (initial_input : String) (resume : Bool) (fuel : Nat) : RunOutcome :=
  runLoop beh interv w.edges initial_input fuel (initState w initial_input resume)

def RunOutcome.finalState : RunOutcome → EngineState
  | .done st _ => st
  | .raised st _ => st
  | .fuelOut st => st

def RunOutcome.traceOf (o : RunOutcome) : List TraceEvent := o.finalState.trace

/-- The exception escaping `execute`, when one did. -/
def RunOutcome.raisedError : RunOutcome → Option String
  | .raised _ e => some e
  | _ => none

/-! ### `_strip_thinking` and the AgentNode result binding
(src/core/workflow.py lines 1341–1361, src/core/nodes/agent_node.py) -/

/-- Case-insensitive `startsWithL`. -/
def startsWithCIL (l pat : List Char) : Bool := startsWithL (l.map pyLowerChar) pat

/-- Capture up to (and consuming) the first case-insensitive occurrence of
`stop`. -/
def captureUntilCI (stop : List Char) : Nat → List Char → Option (List Char × List Char)
  | fuel, l =>
    if startsWithCIL l stop then some ([], l.drop stop.length)
    else
      match fuel, l with
      | _, [] => none
      | 0, _ => none
      | f + 1, c :: cs => (captureUntilCI stop f cs).map (fun p => (c :: p.1, p.2))

def stripThinkAux : Nat → List Char → List Char
  | 0, l => l
  | _ + 1, [] => []
  | fuel + 1, c :: cs =>
    if startsWithCIL (c :: cs) "<think>".data then
      match captureUntilCI "</think>".data cs.length ((c :: cs).drop 7) with
      | some (_, rest) => stripThinkAux fuel rest
      | none => c :: stripThinkAux fuel cs
    else c :: stripThinkAux fuel cs

/-- `WorkflowEngine._strip_thinking`: remove `<think>…</think>` blocks
(case-insensitive) and strip the remainder. -/
def strip_thinking (s : String) : String :=
  pyStrip ⟨stripThinkAux s.data.length s.data⟩

structure AgentOutcome where
  ok : Bool
  output : Option String := none
  error : Option String := none
deriving DecidableEq, Repr

/-- The validation/retry loop of `AgentNode.execute`
(src/core/nodes/agent_node.py, lines 49–256), reduced to the data flow
around the failover call: each round calls
`execute_with_failover` (the generated `task` closure differs per round
because of the correction preamble, whence the `Nat` index), binds the
first component of the returned triple to `output`, strips thinking
blocks, validates, and either returns `ok` or retries.  Tool extraction,
blackboard tags and memory writes are side effects no claim here reads.
`retry` mirrors `current_retry`; the loop bound `self.max_retries` is 3. -/
def agent_execute_loop (O : PyLibOracle)
    (tier : String → String → Option (String × String)) (now : Int)
    (cat : Option String) (provider model : String)
    (task : Nat → String → String → TaskRes) (rules : List AgreementRule) :
    Nat → Nat → FoManager → AgentOutcome
  | 0, _, _ => { ok := false, error := some "Max retries reached" }
  | fuel + 1, retry, m =>
    match execute_with_failover tier now m provider model (task retry) cat with
    | .raised e =>
      if retry + 1 ≥ 3 then { ok := false, error := some e }
      else agent_execute_loop O tier now cat provider model task rules fuel (retry + 1) m
    | .returned m' _ res =>
      let output :=
        match res with
        | .success v _ _ => v
        | .exhausted msg _ _ => msg
      let output := strip_thinking output
      match validate O output rules with
      | none =>
        if retry + 1 ≥ 3 then { ok := false, error := some "validation raised" }
        else agent_execute_loop O tier now cat provider model task rules fuel (retry + 1) m'
      | some v =>
        if v.passed then { ok := true, output := some output }
        else if v.failed_required ≠ [] then
          (if retry + 1 < 3 then
            agent_execute_loop O tier now cat provider model task rules fuel (retry + 1) m'
          else
            { ok := false,
              error := some ("Validation failed: " ++ String.intercalate ", " v.failed_required) })
        else { ok := false, error := some "Max retries reached" }

/-! ### Trace accessors and predicates used by the properties -/

/-- The `(provider, model)` pairs of the `call` events, in order. -/
def foCalls (tr : List FoEvent) : List (String × String) :=
  tr.filterMap (fun e => match e with | .call p m => some (p, m) | _ => none)

def FoOutcome.traceOf : FoOutcome → List FoEvent
  | .returned _ tr _ => tr
  | .raised _ => []

/-- `noSecondCallBeforeSleep pending tr`: scanning `tr`, no two `call`
events occur without a `sleepRetry` between them (`pending` = a call was
seen since the last sleep). -/
def noSecondCallBeforeSleep : Bool → List FoEvent → Bool
  | _, [] => true
  | pending, .call _ _ :: r => !pending && noSecondCallBeforeSleep true r
  | _, .sleepRetry _ :: r => noSecondCallBeforeSleep false r
  | pending, _ :: r => noSecondCallBeforeSleep pending r

/-- The scan flag of `noSecondCallBeforeSleep` after a trace. -/
def callPending : Bool → List FoEvent → Bool
  | pending, [] => pending
  | _, .call _ _ :: r => callPending true r
  | _, .sleepRetry _ :: r => callPending false r
  | pending, _ :: r => callPending pending r

/-- All retry-sleep events in the trace sleep exactly `d`. -/
def sleepsAllEq (d : Nat) (tr : List FoEvent) : Bool :=
  tr.all (fun e => match e with | .sleepRetry x => x == d | _ => true)

/-- The firing condition of one outgoing edge in the routing loop. -/
def edge_fires (ntype : NodeType) (output_lower : String) (e : WorkflowEdge) : Bool :=
  if ntype = .auditor ∧ e.feedback then
    rejectionMarkers.any (fun p => strContains output_lower p)
  else if ntype = .auditor ∧ ¬ e.feedback then
    approvalMarkers.any (fun p => strContains output_lower p)
  else true

def nodeOf (o : RunOutcome) (id : String) : Option WorkflowNode :=
  getNode o.finalState id

def StepOut.continued : StepOut → Bool
  | .cont _ _ => true
  | .raised _ _ => false

def StepOut.stateOf : StepOut → EngineState
  | .cont st _ => st
  | .raised st _ => st

def StepOut.progressOf : StepOut → Bool
  | .cont _ p => p
  | .raised _ _ => false

/-- The set of invocation events in a trace is "justified" by `edges` when
each one happened with every non-feedback predecessor already in the
engine's completed set. -/
def invokesJustified (edges : List WorkflowEdge) (tr : List TraceEvent) : Prop :=
  ∀ id C, TraceEvent.invoke id C ∈ tr →
    ∀ e ∈ edges, e.target_id = id → e.feedback = false → e.source_id ∈ C

/-- Whether a trace event is an executor invocation. -/
def TraceEvent.isInvoke : TraceEvent → Bool
  | .invoke _ _ => true
  | _ => false

/-- A trace fragment holding no invocation events. -/
def noInv (L : List TraceEvent) : Bool := L.all (fun e => ! e.isInvoke)

/-- `st'` extends `st` by trace events none of which is an invocation. -/
def extendsNoInv (st st' : EngineState) : Prop :=
  ∃ L, st'.trace = st.trace ++ L ∧ noInv L = true

def PassOut.stateOf : PassOut → EngineState
  | .ok st _ => st
  | .raised st _ => st

/-! ### Concrete instances used by the counterexamples and witnesses -/

/-- A concrete library oracle (all `regex`/`json`/`schema` checks fail). -/
def oracle0 : PyLibOracle :=
  { regexSearch := fun _ _ => false, jsonCheck := fun _ => false, schemaCheck := fun _ _ => false }

def interv0 : IntervBeh := fun _ _ => none

def tier0 : String → String → Option (String × String) := fun _ _ => none

/-- C8: a passing contains rule, a passing word-count rule and an unknown
rule kind. -/
def rulesC8 : List AgreementRule :=
  [⟨"has-hello", "contains", .str "Hello", true⟩,
   ⟨"short", "max_words", .int 3, true⟩,
   ⟨"mystery", "frobnicate", .null, true⟩]

def resC8 : ValidationResult :=
  (validate oracle0 "hello world" rulesC8).getD ⟨false, [], []⟩

/-- C1: entries `w` and `u`, both non-feedback predecessors of `v`;
`u`'s executor fails. -/
def wfC1 : Workflow :=
  { nodes := [{ id := "w", name := "w" }, { id := "u", name := "u" }, { id := "v", name := "v" }]
    edges := [{ source_id := "w", target_id := "v" }, { source_id := "u", target_id := "v" }] }

def behC1 : NodeBeh := fun id _ => if id = "u" then .fail "boom" else .ok "done"

def outC1 : RunOutcome := execute wfC1 behC1 interv0 "hi" false 10

/-- C2: two independent entry nodes; `A`'s executor fails, `B`'s succeeds. -/
def wfC2 : Workflow :=
  { nodes := [{ id := "A", name := "A" }, { id := "B", name := "B" }], edges := [] }

def behC2 : NodeBeh := fun id _ => if id = "A" then .fail "crash" else .ok "fine"

def outC2 : RunOutcome := execute wfC2 behC2 interv0 "x" false 10

def stC2 : EngineState := outC2.finalState

def resC2 : RunResult := mkResult stC2

/-- C3: a single node whose output carries a sleep tag with a non-numeric
duration. -/
def wfC3 : Workflow := { nodes := [{ id := "a", name := "a" }], edges := [] }

def behC3 : NodeBeh := fun _ _ => .ok "<sleep duration=\"zz\"/>"

def outC3 : RunOutcome := execute wfC3 behC3 interv0 "hi" false 5

/-- C3 witness material: a behaviour whose executor always raises, and the
first entry node of `wfC1`. -/
def behExn : NodeBeh := fun _ _ => .exn "kaboom"

def nodeW : WorkflowNode := { id := "w", name := "w" }

/-- C9 witness material: a state whose node `B` is complete at its
iteration bound, and one below the bound. -/
def nodeSkip : WorkflowNode :=
  { id := "B", name := "B", status := .complete, output := some "bout", iteration_count := 1 }

def nodeRecycle : WorkflowNode :=
  { id := "B", name := "B", status := .complete, output := some "bout", iteration_count := 0 }

def stSkip : EngineState :=
  { nodes := [nodeSkip], completed := ["B"]
    outputs := [("__input__", "x"), ("B", "bout")], queue := [] }

def stRecycle : EngineState :=
  { nodes := [nodeRecycle], completed := ["B"]
    outputs := [("__input__", "x"), ("B", "bout")], queue := [] }

/-- C6: Input → Writer → Critic with a feedback edge Critic → Writer; the
critic's output carries rejection markers. -/
def wfC6 : Workflow :=
  { nodes := [
      { id := "in", name := "Input", type := .input },
      { id := "wr", name := "Writer", max_iterations := 2 },
      { id := "cr", name := "Critic", type := .auditor }]
    edges := [
      { source_id := "in", target_id := "wr" },
      { source_id := "wr", target_id := "cr" },
      { source_id := "cr", target_id := "wr", feedback := true }] }

def behC6 : NodeBeh := fun id _ =>
  if id = "wr" then .ok "draft one" else .ok "rejected: needs_rework"

def outC6 : RunOutcome := execute wfC6 behC6 interv0 "go" false 10

/-- C7: `a`'s only incoming edge is a feedback edge from `b`. -/
def wfC7 : Workflow :=
  { nodes := [{ id := "a", name := "a" }, { id := "b", name := "b" }]
    edges := [{ source_id := "b", target_id := "a", feedback := true }] }

/-- C9: `B` completes once (`max_iterations = 1`), then `A` dispatches it
again via a `<dispatch_task>` tag. -/
def wfC9 : Workflow :=
  { nodes := [{ id := "B", name := "B" }, { id := "A", name := "A" }], edges := [] }

def behC9 : NodeBeh := fun id _ =>
  if id = "A" then .ok "<dispatch_task node=\"B\">go</dispatch_task>" else .ok "bout"

def outC9 : RunOutcome := execute wfC9 behC9 interv0 "x" false 10

/-- C5: four registered providers, every generation attempt raising. -/
def mgrC5 : FoManager :=
  register_provider (register_provider (register_provider (register_provider
    {} "p1" "p1" ["m1"] 10) "p2" "p2" ["m2"] 20) "p3" "p3" ["m3"] 30) "p4" "p4" ["m4"] 40

def taskC5 : String → String → TaskRes := fun _ _ => .exn "boom"

def outC5 : FoOutcome := execute_with_failover tier0 1000 mgrC5 "p1" "m1" taskC5 none

/-- C5 witness scenario: a task that succeeds on the first attempt. -/
def taskC5w : String → String → TaskRes := fun _ _ => .val "ok"

/-- C10: a single registered provider and no fallbacks; the first failure
exhausts the candidates. -/
def mgrC10 : FoManager := register_provider {} "p" "p" ["m"] 10

def taskC10 : Nat → String → String → TaskRes := fun _ _ _ => .exn "boom"

def outC10 : FoOutcome := execute_with_failover tier0 1000 mgrC10 "p" "m" (taskC10 0) none

/-- The manager returned by the C10 run (with the failure recorded). -/
def outC10m : FoManager :=
  match outC10 with
  | .returned mm _ _ => mm
  | .raised _ => {}

/-! ## Properties

Shared helper lemmas, then one theorem per claim (with a counterexample
theorem where the claim as stated fails, and a witness instantiating every
theorem that carries hypotheses). -/

theorem foldl_preserves {α β : Type} (P : α → Prop) (f : α → β → α)
    (hf : ∀ a b, P a → P (f a b)) : ∀ (l : List β) (a : α), P a → P (l.foldl f a) := by
  intro l
  induction l with
  | nil => intro a ha; exact ha
  | cons b bs ih => intro a ha; exact ih (f a b) (hf a b ha)

theorem safe_path_none {base p : String}
    (h : pyStartsWith (pyNormpath (pyJoin base p)) base = false) :
    safe_path base p = none := by
  simp [safe_path, h]

theorem safe_path_some {base p t : String} (h : safe_path base p = some t) :
    pyStartsWith t base = true := by
  simp only [safe_path] at h
  split at h
  · cases h; assumption
  · cases h

/-- C7 (amended): with `resume = false` every node is reset to idle with
output and error cleared, and the initial queue is exactly
`get_entry_nodes` — the nodes that are the target of **no** edge at all,
feedback edges included. -/
theorem C7_reset_and_entry_queue (w : Workflow) (inp : String) :
    (∀ n ∈ (initState w inp false).nodes, n.status = .idle ∧ n.output = none ∧ n.error = none) ∧
    (initState w inp false).queue = w.get_entry_nodes ∧
    (∀ id, id ∈ w.get_entry_nodes ↔
      id ∈ w.nodes.map (·.id) ∧ ∀ e ∈ w.edges, e.target_id ≠ id) := by
  refine ⟨?_, rfl, ?_⟩
  · intro n hn
    simp only [initState, Bool.false_eq_true, if_false, List.mem_map] at hn
    obtain ⟨m, _, rfl⟩ := hn
    exact ⟨rfl, rfl, rfl⟩
  · intro id
    simp only [Workflow.get_entry_nodes, List.mem_map, List.mem_filter,
      decide_eq_true_eq, List.elem_iff]
    constructor
    · rintro ⟨n, ⟨hn, hni⟩, rfl⟩
      refine ⟨⟨n, hn, rfl⟩, ?_⟩
      intro e he hcontra
      exact hni ⟨e, he, hcontra⟩
    · rintro ⟨⟨n, hn, rfl⟩, hno⟩
      refine ⟨n, ⟨hn, ?_⟩, rfl⟩
      rintro ⟨e, he, hei⟩
      exact hno e he hei

/-- C7 counterexample: in `wfC7` the node `a` has exactly one incoming
edge, and it is a feedback edge; the claim says `a` is then seeded into the
initial queue, but `get_entry_nodes` excludes it — the initial queue is
`["b"]`. -/
theorem C7_counterexample :
    (wfC7.edges.filter (fun e => e.target_id = "a")) ≠ [] ∧
    (wfC7.edges.filter (fun e => e.target_id = "a")).all (·.feedback) = true ∧
    "a" ∈ wfC7.nodes.map (·.id) ∧
    (initState wfC7 "x" false).queue = ["b"] ∧
    "a" ∉ (initState wfC7 "x" false).queue := by
  refine ⟨by decide, by decide, by decide, by decide, by decide⟩

/-- C7 witness: the amended theorem applied to `wfC7`. -/
theorem C7_witness :
    ((initState wfC7 "x" false).queue = wfC7.get_entry_nodes) ∧
    ("b" ∈ wfC7.get_entry_nodes ↔
      "b" ∈ wfC7.nodes.map (·.id) ∧ ∀ e ∈ wfC7.edges, e.target_id ≠ "b") ∧
    (∀ n ∈ (initState wfC7 "x" false).nodes,
      n.status = .idle ∧ n.output = none ∧ n.error = none) := by
  have h := C7_reset_and_entry_queue wfC7 "x"
  exact ⟨h.2.1, h.2.2 "b", h.1⟩

theorem runLoop_done (beh : NodeBeh) (interv : IntervBeh) (edges : List WorkflowEdge)
    (it : String) : ∀ (fuel : Nat) (st st' : EngineState) (res : RunResult),
    runLoop beh interv edges it fuel st = .done st' res →
    res = mkResult st' ∧ st'.queue = [] := by
  intro fuel
  induction fuel with
  | zero => intro st st' res h; simp [runLoop] at h
  | succ n ih =>
    intro st st' res h
    simp only [runLoop] at h
    split at h
    · rename_i hq
      cases h
      exact ⟨rfl, hq⟩
    · split at h
      · cases h
      · exact ih _ st' res h

/-- C2: whenever `execute` returns (the queue emptied), the `success` field
of the result is true iff every node of the workflow has status complete in
the returned per-node map; in particular any failed node forces
`success = false`. -/
theorem C2_success_iff_all_complete (w : Workflow) (beh : NodeBeh) (interv : IntervBeh)
    (inp : String) (resume : Bool) (fuel : Nat) (st : EngineState) (res : RunResult)
    (h : execute w beh interv inp resume fuel = .done st res) :
    st.queue = [] ∧
    (res.success = true ↔ ∀ p ∈ res.nodesOut, p.2.status = .complete) ∧
    (∀ p ∈ res.nodesOut, p.2.status = .failed → res.success = false) := by
  obtain ⟨hres, hq⟩ := runLoop_done beh interv w.edges inp fuel _ st res h
  subst hres
  refine ⟨hq, ?_, ?_⟩
  · simp only [mkResult, List.all_eq_true, decide_eq_true_eq, List.mem_map]
    constructor
    · rintro hall p ⟨n, hn, rfl⟩
      exact hall n hn
    · intro hall n hn
      exact hall (n.id, ⟨n.status, n.output, n.error⟩) ⟨n, hn, rfl⟩
  · intro p hp hfail
    by_contra hsucc
    rw [Bool.not_eq_false] at hsucc
    simp only [mkResult, List.all_eq_true, decide_eq_true_eq] at hsucc
    simp only [mkResult, List.mem_map] at hp
    obtain ⟨n, hn, rfl⟩ := hp
    have := hsucc n hn
    simp only [this] at hfail
    cases hfail

/-- C2 witness: the theorem applied to a concrete run in which node `A`
fails, node `B` still executes afterwards, and the run returns
`success = false` without terminating early. -/
theorem C2_witness :
    (resC2.success = true ↔ ∀ p ∈ resC2.nodesOut, p.2.status = .complete) ∧
    resC2.success = false ∧
    invokeCount stC2.trace "B" = 1 ∧
    (nodeOf outC2 "B").map (·.status) = some .complete ∧
    (nodeOf outC2 "A").map (·.status) = some .failed := by
  have h := C2_success_iff_all_complete wfC2 behC2 interv0 "x" false 10 stC2 resC2 (by decide)
  exact ⟨h.2.1, by decide, by decide, by decide, by decide⟩

/-- C8: `AgreementValidator.validate` passes iff no required rule fails,
`failed_required` is exactly the names of the failing required rules in
rule order, `contains`/`not_contains` are case-insensitive substring tests,
`min_words`/`max_words` compare the whitespace-split word count, and a rule
of any unknown kind passes. -/
theorem C8_agreement_validator :
    (∀ (O : PyLibOracle) (output : String) (rules : List AgreementRule)
        (res : ValidationResult), validate O output rules = some res →
      ((res.passed = true ↔
          ∀ r ∈ rules, r.required = true → (check_rule O output r).getD false = true) ∧
        res.failed_required =
          (rules.filter (fun r => !((check_rule O output r).getD false) && r.required)).map
            (·.name))) ∧
    (∀ O output nm v req, check_rule O output ⟨nm, "contains", .str v, req⟩ =
      some (strContains (pyLower output) (pyLower v))) ∧
    (∀ O output nm v req, check_rule O output ⟨nm, "not_contains", .str v, req⟩ =
      some (!strContains (pyLower output) (pyLower v))) ∧
    (∀ O output nm n req, check_rule O output ⟨nm, "min_words", .int n, req⟩ =
      some (decide ((pyWordCount output : Int) ≥ n))) ∧
    (∀ O output nm n req, check_rule O output ⟨nm, "max_words", .int n, req⟩ =
      some (decide ((pyWordCount output : Int) ≤ n))) ∧
    (∀ O output nm t v req,
      t ∉ ["contains", "not_contains", "min_words", "max_words", "regex", "json", "schema"] →
      check_rule O output ⟨nm, t, v, req⟩ = some true) := by
  refine ⟨?_, fun _ _ _ _ _ => rfl, fun _ _ _ _ _ => rfl, fun _ _ _ _ _ => rfl,
    fun _ _ _ _ _ => rfl, ?_⟩
  · intro O output rules res h
    simp only [validate] at h
    split at h
    · cases h
      have h2 :
          (((rules.map (fun r => (r, check_rule O output r))).map
              (fun p => (p.1, p.2.getD false))).filter
                (fun p => !p.2 && p.1.required)).map (fun p => p.1.name) =
            (rules.filter
              (fun r => !((check_rule O output r).getD false) && r.required)).map
              (·.name) := by
        rw [List.map_map, List.filter_map, List.map_map]
        rfl
      refine ⟨?_, h2⟩
      show decide
          (((((rules.map (fun r => (r, check_rule O output r))).map
            (fun p => (p.1, p.2.getD false))).filter
              (fun p => !p.2 && p.1.required)).map (fun p => p.1.name)).length = 0) = true ↔ _
      rw [h2]
      simp only [decide_eq_true_eq, List.length_eq_zero, List.map_eq_nil_iff,
        List.filter_eq_nil_iff, Bool.and_eq_true, Bool.not_eq_true', not_and,
        decide_eq_true_eq]
      constructor
      · intro hall r hr hreq
        cases hc : (check_rule O output r).getD false with
        | true => rfl
        | false => exact absurd hreq (hall r hr hc)
      · intro hall r hr hc hreq
        have := hall r hr hreq
        rw [this] at hc
        cases hc
    · cases h
  · intro O output nm t v req ht
    simp only [List.mem_cons, List.mem_singleton, not_or] at ht
    obtain ⟨h1, h2, h3, h4, h5, h6, h7⟩ := ht
    simp [check_rule, h1, h2, h3, h4, h5, h6]
    intro hc
    exact absurd hc h7.1

/-- C8 witness: the theorem applied to a concrete output and rule list. -/
theorem C8_witness :
    validate oracle0 "hello world" rulesC8 = some resC8 ∧
    (resC8.passed = true ↔
      ∀ r ∈ rulesC8, r.required = true → (check_rule oracle0 "hello world" r).getD false = true) ∧
    resC8.failed_required =
      (rulesC8.filter
        (fun r => !((check_rule oracle0 "hello world" r).getD false) && r.required)).map
        (·.name) ∧
    check_rule oracle0 "hello world" ⟨"u", "frobnicate", .null, true⟩ = some true := by
  have h := (C8_agreement_validator.1 oracle0 "hello world" rulesC8 resC8 (by decide))
  exact ⟨by decide, h.1, h.2,
    C8_agreement_validator.2.2.2.2.2 oracle0 "hello world" "u" "frobnicate" .null true
      (by decide)⟩

theorem sandboxed_append (base : String) (ops extra : List FsOp)
    (h : sandboxed base ops)
    (hextra : ∀ op ∈ extra, ∀ p ∈ op.writeLikePaths, pyStartsWith p base = true) :
    sandboxed base (ops ++ extra) := by
  intro op hop p hp
  rcases List.mem_append.mp hop with hold | hnew
  · exact h op hold p hp
  · exact hextra op hnew p hp

theorem write_tag_sandboxed (base : String) (st : ToolState) (tag : String × String)
    (h : sandboxed base st.fsOps) :
    sandboxed base (process_write_file_tag base st tag).fsOps := by
  unfold process_write_file_tag
  cases hsp : safe_path base tag.1 with
  | none => simp only [hsp]; exact h
  | some t =>
    simp only [hsp]
    by_cases hc : clean_content tag.2 = ""
    · simp only [hc, if_pos rfl]; exact h
    · simp only [if_neg hc]
      refine sandboxed_append base _ _ h ?_
      intro op hop p hp
      simp only [List.mem_cons, List.not_mem_nil, or_false] at hop
      rcases hop with rfl | rfl
      · simp [FsOp.writeLikePaths] at hp
      · simp only [FsOp.writeLikePaths, List.mem_singleton] at hp
        subst hp
        exact safe_path_some hsp

theorem append_tag_sandboxed (base : String) (st : ToolState) (tag : String × String)
    (h : sandboxed base st.fsOps) :
    sandboxed base (process_append_file_tag base st tag).fsOps := by
  unfold process_append_file_tag
  cases hsp : safe_path base tag.1 with
  | none => simp only [hsp]; exact h
  | some t =>
    simp only [hsp]
    refine sandboxed_append base _ _ h ?_
    intro op hop p hp
    simp only [List.mem_cons, List.not_mem_nil, or_false] at hop
    rcases hop with rfl | rfl
    · simp [FsOp.writeLikePaths] at hp
    · simp only [FsOp.writeLikePaths, List.mem_singleton] at hp
      subst hp
      exact safe_path_some hsp

theorem delete_file_tag_sandboxed (base : String) (fs : String → FileKind)
    (st : ToolState) (p : String) (h : sandboxed base st.fsOps) :
    sandboxed base (process_delete_file_tag base fs st p).fsOps := by
  unfold process_delete_file_tag
  cases hsp : safe_path base p with
  | none => simp only [hsp]; exact h
  | some t =>
    simp only [hsp]
    by_cases hk : fs t = FileKind.file
    · simp only [hk, if_pos rfl]
      refine sandboxed_append base _ _ h ?_
      intro op hop q hq
      simp only [List.mem_cons, List.not_mem_nil, or_false] at hop
      subst hop
      simp only [FsOp.writeLikePaths, List.mem_singleton] at hq
      subst hq
      exact safe_path_some hsp
    · simp only [if_neg hk]
      exact h

theorem delete_dir_tag_sandboxed (base : String) (fs : String → FileKind)
    (st : ToolState) (p : String) (h : sandboxed base st.fsOps) :
    sandboxed base (process_delete_dir_tag base fs st p).fsOps := by
  unfold process_delete_dir_tag
  cases hsp : safe_path base p with
  | none => simp only [hsp]; exact h
  | some t =>
    simp only [hsp]
    by_cases hk : fs t = FileKind.directory
    · simp only [hk, if_pos rfl]
      refine sandboxed_append base _ _ h ?_
      intro op hop q hq
      simp only [List.mem_cons, List.not_mem_nil, or_false] at hop
      subst hop
      simp only [FsOp.writeLikePaths, List.mem_singleton] at hq
      subst hq
      exact safe_path_some hsp
    · simp only [if_neg hk]
      exact h

theorem copy_tag_sandboxed (base : String) (st : ToolState) (tag : String × String)
    (h : sandboxed base st.fsOps) :
    sandboxed base (process_copy_tag base st tag).fsOps := by
  unfold process_copy_tag
  cases hs : safe_path base tag.1 with
  | none => simp only [hs]; exact h
  | some s =>
    cases hd : safe_path base tag.2 with
    | none => simp only [hs, hd]; exact h
    | some d =>
      simp only [hs, hd]
      refine sandboxed_append base _ _ h ?_
      intro op hop q hq
      simp only [List.mem_cons, List.not_mem_nil, or_false] at hop
      rcases hop with rfl | rfl
      · simp [FsOp.writeLikePaths] at hq
      · simp only [FsOp.writeLikePaths, List.mem_singleton] at hq
        subst hq
        exact safe_path_some hd

theorem move_tag_sandboxed (base : String) (st : ToolState) (tag : String × String)
    (h : sandboxed base st.fsOps) :
    sandboxed base (process_move_tag base st tag).fsOps := by
  unfold process_move_tag
  cases hs : safe_path base tag.1 with
  | none => simp only [hs]; exact h
  | some s =>
    cases hd : safe_path base tag.2 with
    | none => simp only [hs, hd]; exact h
    | some d =>
      simp only [hs, hd]
      refine sandboxed_append base _ _ h ?_
      intro op hop q hq
      simp only [List.mem_cons, List.not_mem_nil, or_false] at hop
      rcases hop with rfl | rfl
      · simp [FsOp.writeLikePaths] at hq
      · simp only [FsOp.writeLikePaths, List.mem_cons, List.not_mem_nil, or_false] at hq
        rcases hq with rfl | rfl
        · exact safe_path_some hs
        · exact safe_path_some hd

/-- C4: a file-tag path whose normalized join with the base directory does
not begin with the base directory is rejected — the tag performs no
filesystem operation, and a blocked `write_file` appends to
`results.errors` — and every write/append/delete/move any handler does
perform targets a path beginning with the base directory. -/
theorem C4_path_escape_rejected :
    (∀ base st p c, pyStartsWith (pyNormpath (pyJoin base p)) base = false →
      (process_write_file_tag base st (p, c)).fsOps = st.fsOps ∧
      (process_write_file_tag base st (p, c)).results.errors =
        st.results.errors ++ ["Blocked write: " ++ p]) ∧
    (∀ base st p c, pyStartsWith (pyNormpath (pyJoin base p)) base = false →
      process_append_file_tag base st (p, c) = st) ∧
    (∀ base fs st p, pyStartsWith (pyNormpath (pyJoin base p)) base = false →
      process_delete_file_tag base fs st p = st) ∧
    (∀ base fs st p, pyStartsWith (pyNormpath (pyJoin base p)) base = false →
      process_delete_dir_tag base fs st p = st) ∧
    (∀ base st a b, pyStartsWith (pyNormpath (pyJoin base a)) base = false ∨
        pyStartsWith (pyNormpath (pyJoin base b)) base = false →
      process_copy_tag base st (a, b) = st ∧ process_move_tag base st (a, b) = st) ∧
    (∀ base fs st wtags atags dtags ddtags ctags mtags,
      sandboxed base st.fsOps →
      sandboxed base (process_move base (process_copy base (process_delete_dir base fs
        (process_delete_file base fs (process_append_file base
          (process_write_file base st wtags) atags) dtags) ddtags) ctags) mtags).fsOps) := by
  refine ⟨?_, ?_, ?_, ?_, ?_, ?_⟩
  · intro base st p c h
    simp [process_write_file_tag, safe_path_none h]
  · intro base st p c h
    simp [process_append_file_tag, safe_path_none h]
  · intro base fs st p h
    simp [process_delete_file_tag, safe_path_none h]
  · intro base fs st p h
    simp [process_delete_dir_tag, safe_path_none h]
  · intro base st a b h
    rcases h with h | h
    · exact ⟨by simp [process_copy_tag, safe_path_none h],
        by simp [process_move_tag, safe_path_none h]⟩
    · constructor
      · unfold process_copy_tag
        cases safe_path base a with
        | none => rfl
        | some s => rw [safe_path_none h]
      · unfold process_move_tag
        cases safe_path base a with
        | none => rfl
        | some s => rw [safe_path_none h]
  · intro base fs st wtags atags dtags ddtags ctags mtags h
    refine foldl_preserves (fun s => sandboxed base s.fsOps) _
      (fun a b ha => move_tag_sandboxed base a b ha) mtags _ ?_
    refine foldl_preserves (fun s => sandboxed base s.fsOps) _
      (fun a b ha => copy_tag_sandboxed base a b ha) ctags _ ?_
    refine foldl_preserves (fun s => sandboxed base s.fsOps) _
      (fun a b ha => delete_dir_tag_sandboxed base fs a b ha) ddtags _ ?_
    refine foldl_preserves (fun s => sandboxed base s.fsOps) _
      (fun a b ha => delete_file_tag_sandboxed base fs a b ha) dtags _ ?_
    refine foldl_preserves (fun s => sandboxed base s.fsOps) _
      (fun a b ha => append_tag_sandboxed base a b ha) atags _ ?_
    exact foldl_preserves (fun s => sandboxed base s.fsOps) _
      (fun a b ha => write_tag_sandboxed base a b ha) wtags _ h

/-- C4 witness: the theorem applied to the `../etc/passwd` escape of the
spec's scenario 6 (and one in-sandbox write showing the invariant). -/
theorem C4_witness :
    pyStartsWith (pyNormpath (pyJoin "/base" "../etc/passwd")) "/base" = false ∧
    (process_write_file_tag "/base" {} ("../etc/passwd", "x")).fsOps = [] ∧
    (process_write_file_tag "/base" {} ("../etc/passwd", "x")).results.errors =
      ["Blocked write: ../etc/passwd"] ∧
    sandboxed "/base" (process_write_file "/base" {}
      [("../etc/passwd", "x"), ("ok.txt", "y")]).fsOps := by
  have h1 := C4_path_escape_rejected.1 "/base" {} "../etc/passwd" "x" (by decide)
  have h6 := C4_path_escape_rejected.2.2.2.2.2 "/base" (fun _ => FileKind.absent) {}
    [("../etc/passwd", "x"), ("ok.txt", "y")] [] [] [] [] []
    (by intro op hop p hp; cases hop)
  refine ⟨by decide, h1.1, by simpa using h1.2, ?_⟩
  simpa [process_move, process_copy, process_delete_dir, process_delete_file,
    process_append_file] using h6

theorem route_step_mem (ntype : NodeType) (out nid : String) (completed : List String)
    (acc : List String × List String) (e : WorkflowEdge) (t : String) :
    t ∈ (route_step ntype out nid completed acc e).1 ↔
      t ∈ acc.1 ∨ (e.source_id = nid ∧ e.target_id = t ∧ t ∉ completed ∧
        edge_fires ntype out e = true) := by
  unfold route_step
  by_cases hsrc : e.source_id = nid
  · rw [if_neg (not_not_intro hsrc)]
    by_cases hguard : completed.contains e.target_id ∨ acc.1.contains e.target_id
    · rw [if_pos hguard]
      constructor
      · exact fun h => Or.inl h
      · rintro (h | ⟨-, rfl, hnc, -⟩)
        · exact h
        · rcases hguard with hg | hg
          · exact absurd (List.elem_iff.mp hg) hnc
          · exact List.elem_iff.mp hg
    · rw [if_neg hguard]
      rw [not_or] at hguard
      obtain ⟨hnc, hnq⟩ := hguard
      have hnc' : e.target_id ∉ completed := fun hm => hnc (List.elem_iff.mpr hm)
      have split_append : ∀ u : List String,
          t ∈ u ++ [e.target_id] ↔ t ∈ u ∨ t = e.target_id := by
        intro u; simp [List.mem_append]
      by_cases h1 : ntype = NodeType.auditor ∧ e.feedback = true
      · rw [if_pos h1]
        have hef : edge_fires ntype out e =
            rejectionMarkers.any (fun p => strContains out p) := by
          simp [edge_fires, h1.1, h1.2]
        by_cases hrej : rejectionMarkers.any (fun p => strContains out p) = true
        · rw [if_pos hrej]
          show t ∈ acc.1 ++ [e.target_id] ↔ _
          rw [split_append, hef]
          constructor
          · rintro (h | rfl)
            · exact Or.inl h
            · exact Or.inr ⟨hsrc, rfl, hnc', hrej⟩
          · rintro (h | ⟨-, rfl, -, -⟩)
            · exact Or.inl h
            · exact Or.inr rfl
        · rw [if_neg hrej, hef]
          constructor
          · exact fun h => Or.inl h
          · rintro (h | ⟨-, rfl, -, hfi⟩)
            · exact h
            · exact absurd hfi hrej
      · rw [if_neg h1]
        by_cases h2 : ntype = NodeType.auditor ∧ ¬ e.feedback = true
        · rw [if_pos h2]
          have hef : edge_fires ntype out e =
              approvalMarkers.any (fun p => strContains out p) := by
            have hfb : e.feedback = false := by
              cases hfb : e.feedback
              · rfl
              · exact absurd hfb h2.2
            simp [edge_fires, h2.1, hfb]
          by_cases happ : approvalMarkers.any (fun p => strContains out p) = true
          · rw [if_pos happ]
            show t ∈ acc.1 ++ [e.target_id] ↔ _
            rw [split_append, hef]
            constructor
            · rintro (h | rfl)
              · exact Or.inl h
              · exact Or.inr ⟨hsrc, rfl, hnc', happ⟩
            · rintro (h | ⟨-, rfl, -, -⟩)
              · exact Or.inl h
              · exact Or.inr rfl
          · rw [if_neg happ, hef]
            constructor
            · exact fun h => Or.inl h
            · rintro (h | ⟨-, rfl, -, hfi⟩)
              · exact h
              · exact absurd hfi happ
        · rw [if_neg h2]
          have hef : edge_fires ntype out e = true := by
            unfold edge_fires
            rw [if_neg (fun hc => h1 ⟨hc.1, hc.2⟩), if_neg h2]
          show t ∈ acc.1 ++ [e.target_id] ↔ _
          rw [split_append, hef]
          constructor
          · rintro (h | rfl)
            · exact Or.inl h
            · exact Or.inr ⟨hsrc, rfl, hnc', rfl⟩
          · rintro (h | ⟨-, rfl, -, -⟩)
            · exact Or.inl h
            · exact Or.inr rfl
  · rw [if_pos hsrc]
    constructor
    · exact fun h => Or.inl h
    · rintro (h | ⟨hs, -, -, -⟩)
      · exact h
      · exact absurd hs hsrc

theorem route_fold_mem (ntype : NodeType) (out nid : String) (completed : List String) :
    ∀ (edges : List WorkflowEdge) (acc : List String × List String) (t : String),
    t ∈ (edges.foldl (route_step ntype out nid completed) acc).1 ↔
      t ∈ acc.1 ∨ (t ∉ completed ∧ ∃ e ∈ edges, e.source_id = nid ∧ e.target_id = t ∧
        edge_fires ntype out e = true) := by
  intro edges
  induction edges with
  | nil => intro acc t; simp
  | cons e es ih =>
    intro acc t
    rw [List.foldl_cons, ih, route_step_mem]
    constructor
    · rintro ((h | ⟨hs, ht, hnc, hf⟩) | ⟨hnc, e', he', hs', ht', hf'⟩)
      · exact Or.inl h
      · exact Or.inr ⟨hnc, e, List.mem_cons_self e es, hs, ht, hf⟩
      · exact Or.inr ⟨hnc, e', List.mem_cons_of_mem e he', hs', ht', hf'⟩
    · rintro (h | ⟨hnc, e', he', hs', ht', hf'⟩)
      · exact Or.inl (Or.inl h)
      · rcases List.mem_cons.mp he' with rfl | he''
        · exact Or.inl (Or.inr ⟨hs', ht', hnc, hf'⟩)
        · exact Or.inr ⟨hnc, e', he'', hs', ht', hf'⟩

theorem route_step_no_marker (out nid : String) (completed : List String)
    (hrej : rejectionMarkers.all (fun p => !strContains out p) = true)
    (happ : approvalMarkers.all (fun p => !strContains out p) = true)
    (acc : List String × List String) (e : WorkflowEdge) :
    route_step NodeType.auditor out nid completed acc e = acc := by
  have hrej' : rejectionMarkers.any (fun p => strContains out p) = false := by
    rw [← Bool.not_eq_true, List.any_eq_true]
    rintro ⟨p, hp, hc⟩
    have := List.all_eq_true.mp hrej p hp
    rw [hc] at this
    cases this
  have happ' : approvalMarkers.any (fun p => strContains out p) = false := by
    rw [← Bool.not_eq_true, List.any_eq_true]
    rintro ⟨p, hp, hc⟩
    have := List.all_eq_true.mp happ p hp
    rw [hc] at this
    cases this
  unfold route_step
  by_cases hsrc : e.source_id = nid
  · simp only [hsrc, ne_eq, not_true_eq_false, if_false]
    by_cases hguard : completed.contains e.target_id ∨ acc.1.contains e.target_id
    · simp only [if_pos hguard]
    · simp only [if_neg hguard]
      by_cases hfb : e.feedback = true
      · simp [hfb, hrej']
      · simp [hfb, happ']
  · simp [hsrc]

/-- C6 (amended): after an auditor completes, the target of an outgoing
edge is appended to the queue iff it is not already completed or queued and
the edge fires — a feedback edge fires iff the lowercased output contains a
rejection marker, a non-feedback edge iff it contains an approval marker —
and an output containing no marker from either set queues nothing. -/
theorem C6_auditor_routing :
    (∀ ntype out nid edges completed queue t,
      t ∈ (route_successors ntype out nid edges completed queue).1 ↔
        t ∈ queue ∨ (t ∉ completed ∧ ∃ e ∈ edges, e.source_id = nid ∧ e.target_id = t ∧
          edge_fires ntype out e = true)) ∧
    (∀ out e, e.feedback = true →
      edge_fires NodeType.auditor out e = rejectionMarkers.any (fun p => strContains out p)) ∧
    (∀ out e, e.feedback = false →
      edge_fires NodeType.auditor out e = approvalMarkers.any (fun p => strContains out p)) ∧
    (∀ out nid edges completed queue,
      rejectionMarkers.all (fun p => !strContains out p) = true →
      approvalMarkers.all (fun p => !strContains out p) = true →
      route_successors NodeType.auditor out nid edges completed queue = (queue, [])) := by
  refine ⟨?_, ?_, ?_, ?_⟩
  · intro ntype out nid edges completed queue t
    exact route_fold_mem ntype out nid completed edges (queue, []) t
  · intro out e hfb
    simp [edge_fires, hfb]
  · intro out e hfb
    simp [edge_fires, hfb]
  · intro out nid edges completed queue hrej happ
    unfold route_successors
    have hfix : ∀ (l : List WorkflowEdge) (acc : List String × List String),
        l.foldl (route_step NodeType.auditor out nid completed) acc = acc := by
      intro l
      induction l with
      | nil => intro acc; rfl
      | cons e es ih =>
        intro acc
        rw [List.foldl_cons, route_step_no_marker out nid completed hrej happ acc e]
        exact ih acc
    exact hfix edges (queue, [])

/-- C6 counterexample: in the concrete run of `wfC6` the critic (an
auditor) completes with an output containing the rejection marker
`rejected`, it has a feedback edge to the already-completed writer, and its
routing queues nothing — the writer is executed exactly once. -/
theorem C6_counterexample :
    (TraceEvent.route "cr" []) ∈ outC6.traceOf ∧
    alGet outC6.finalState.outputs "cr" = some "rejected: needs_rework" ∧
    strContains (pyLower "rejected: needs_rework") "rejected" = true ∧
    ({ source_id := "cr", target_id := "wr", feedback := true } : WorkflowEdge) ∈ wfC6.edges ∧
    invokeCount outC6.traceOf "wr" = 1 ∧
    (nodeOf outC6 "wr").map (·.max_iterations) = some 2 := by
  refine ⟨by decide, by decide, by decide, by decide, by decide, by decide⟩

/-- C6 witness: the amended theorem applied at the routing state the
`wfC6` run reaches, and at a state with an un-queued, un-completed
feedback target. -/
theorem C6_witness :
    ("wr" ∈ (route_successors NodeType.auditor "rejected: needs_rework" "cr" wfC6.edges
        ["in", "wr", "cr"] []).1 ↔
      "wr" ∈ ([] : List String) ∨ ("wr" ∉ ["in", "wr", "cr"] ∧
        ∃ e ∈ wfC6.edges, e.source_id = "cr" ∧ e.target_id = "wr" ∧
          edge_fires NodeType.auditor "rejected: needs_rework" e = true)) ∧
    route_successors NodeType.auditor "no markers here" "cr" wfC6.edges [] [] = ([], []) := by
  refine ⟨C6_auditor_routing.1 NodeType.auditor "rejected: needs_rework" "cr" wfC6.edges
    ["in", "wr", "cr"] [] "wr", C6_auditor_routing.2.2.2 "no markers here" "cr" wfC6.edges [] []
    (by decide) (by decide)⟩

theorem getNode_mapNode (st : EngineState) (i2 : String) (f : WorkflowNode → WorkflowNode)
    (hf : ∀ n, (f n).id = n.id) (id : String) :
    getNode (mapNode st i2 f) id =
      (getNode st id).map (fun n => if n.id = i2 then f n else n) := by
  unfold getNode mapNode
  rw [List.find?_map]
  have hpred : ((fun n => decide (n.id = id)) ∘ fun n => if n.id = i2 then f n else n) =
      fun (n : WorkflowNode) => decide (n.id = id) := by
    funext n
    by_cases h : n.id = i2 <;> simp [Function.comp, h, hf]
  rw [hpred]

theorem getNode_setStatus (st : EngineState) (i2 : String) (s : NodeStatus) (id : String) :
    getNode (setStatus st i2 s) id =
      (getNode st id).map (fun n => if n.id = i2 then { n with status := s } else n) := by
  show getNode (mapNode st i2 (fun n => { n with status := s })) id = _
  exact getNode_mapNode st i2 (fun n => { n with status := s }) (fun _ => rfl) id

theorem getNode_setNodeOutput (st : EngineState) (i2 : String) (o : Option String)
    (id : String) :
    getNode (setNodeOutput st i2 o) id =
      (getNode st id).map (fun n => if n.id = i2 then { n with output := o } else n) :=
  getNode_mapNode st i2 (fun n => { n with output := o }) (fun _ => rfl) id

theorem getNode_setNodeError (st : EngineState) (i2 : String) (e : Option String)
    (id : String) :
    getNode (setNodeError st i2 e) id =
      (getNode st id).map (fun n => if n.id = i2 then { n with error := e } else n) :=
  getNode_mapNode st i2 (fun n => { n with error := e }) (fun _ => rfl) id

theorem getNode_addCompleted (st : EngineState) (i2 : String) (id : String) :
    getNode (addCompleted st i2) id = getNode st id := by
  unfold addCompleted
  split <;> rfl

theorem invokeCount_append_single (tr : List TraceEvent) (e : TraceEvent) (id : String)
    (he : ∀ i C, e ≠ .invoke i C) :
    invokeCount (tr ++ [e]) id = invokeCount tr id := by
  unfold invokeCount
  rw [List.countP_append]
  have : List.countP (fun ev => match ev with | .invoke i _ => i == id | _ => false) [e] = 0 := by
    cases e with
    | invoke i C => exact absurd rfl (he i C)
    | _ => rfl
  rw [this, Nat.add_zero]

theorem execute_node_exn (beh : NodeBeh) (st : EngineState) (it ctx : String)
    (node : WorkflowNode) (e : String) (hn : getNode st node.id = some node)
    (hout : node.type ≠ .output) (hin : node.type ≠ .input)
    (hbeh : beh node.id (invokeCount st.trace node.id) = .exn e) :
    (execute_node beh st node.id it ctx).2 =
      { success := false, output := none, error := some e } ∧
    getNode (execute_node beh st node.id it ctx).1 node.id =
      some (if agentFamily.contains node.type then
        { node with status := .running, iteration_count := node.iteration_count + 1 }
      else { node with status := .running }) := by
  simp only [execute_node]
  have h1 : getNode (setStatus st node.id .running) node.id =
      some { node with status := .running } := by
    rw [getNode_setStatus, hn]
    simp
  rw [h1]
  simp only [inner_execute_node]
  have hcount : invokeCount (setStatus st node.id .running).trace node.id =
      invokeCount st.trace node.id := by
    show invokeCount (st.trace ++ [.setStatus node.id .running]) node.id = _
    exact invokeCount_append_single st.trace _ node.id (fun _ _ h => by cases h)
  simp only [hcount]
  rw [if_neg (by simpa using hout), if_neg (by simpa using hin)]
  by_cases hfam : agentFamily.contains node.type = true
  · rw [if_pos hfam, if_pos hfam]
    simp only [hbeh]
    refine ⟨trivial, ?_⟩
    rw [getNode_mapNode _ _ (fun m => { m with iteration_count := m.iteration_count + 1 })
      (fun _ => rfl) node.id]
    show ((getNode (setStatus st node.id .running) node.id).map _) = _
    rw [h1]
    simp
  · rw [if_neg hfam, if_neg hfam]
    simp only [hbeh]
    refine ⟨trivial, ?_⟩
    show (getNode (setStatus st node.id .running) node.id) = _
    rw [h1]

theorem getNode_bumpHistory (st : EngineState) (id : String) :
    getNode { st with history := st.history + 1 } id = getNode st id := rfl

theorem afterExec_failure (edges : List WorkflowEdge) (st : EngineState)
    (r : ExecResult) (nid : String) (hr : r.success = false)
    (hst : ∀ n, getNode st nid = some n → n.status ≠ .complete) :
    afterExec edges st r nid =
      .cont { addCompleted st nid with history := (addCompleted st nid).history + 1 } true := by
  simp only [afterExec, hr, Bool.false_eq_true, false_and, if_false]
  cases hg : getNode (addCompleted st nid) nid with
  | none => simp [hg]
  | some n =>
    rw [getNode_addCompleted] at hg
    have := hst n hg
    simp [getNode_addCompleted, hg, this]

/-- C3 (amended): an executor exception is converted by the per-node
handlers into a failure — `_execute_node` returns
`{"success": False, "error": str(e)}` and the engine marks the node failed
with that string, continues the pass, and does not raise for that node —
but `execute` itself can still raise from the dynamic-dispatch sleep
handling, which runs outside the try/except (see the counterexample). -/
theorem C3_executor_exception_contained (beh : NodeBeh) (edges : List WorkflowEdge)
    (it : String) (st : EngineState) (node : WorkflowNode) (e : String)
    (hn : getNode st node.id = some node)
    (hout : node.type ≠ .output) (hin : node.type ≠ .input)
    (hbeh : beh node.id (invokeCount st.trace node.id) = .exn e) :
    (execute_node beh st node.id it (buildContext st edges node.id)).2 =
      { success := false, output := none, error := some e } ∧
    (processAdmitted beh edges it st node).continued = true ∧
    (processAdmitted beh edges it st node).progressOf = true ∧
    ((getNode (processAdmitted beh edges it st node).stateOf node.id).map (·.status)) =
      some .failed ∧
    ((getNode (processAdmitted beh edges it st node).stateOf node.id).bind (·.error)) =
      some e := by
  obtain ⟨hres, hgn⟩ := execute_node_exn beh st it (buildContext st edges node.id) node e
    hn hout hin hbeh
  have hkey : getNode (setNodeError (setStatus
      (execute_node beh st node.id it (buildContext st edges node.id)).1 node.id .failed)
      node.id (some e)) node.id =
      some (if agentFamily.contains node.type then
        { node with
            status := .failed
            error := some e
            iteration_count := node.iteration_count + 1 }
      else { node with status := .failed, error := some e }) := by
    rw [getNode_setNodeError, getNode_setStatus, hgn]
    by_cases hfam : agentFamily.contains node.type = true
    · rw [if_pos hfam, if_pos hfam]
      simp
    · rw [if_neg hfam, if_neg hfam]
      simp
  refine ⟨hres, ?_⟩
  simp only [processAdmitted]
  rw [hres]
  simp only [Bool.false_eq_true, if_false, Option.getD_some]
  rw [afterExec_failure edges _ _ node.id rfl ?hne]
  case hne =>
    intro n hgx
    rw [hkey] at hgx
    cases hgx
    by_cases hfam : agentFamily.contains node.type = true
    · rw [if_pos hfam]
      simp
    · rw [if_neg hfam]
      simp
  refine ⟨rfl, rfl, ?_, ?_⟩
  · simp only [StepOut.stateOf]
    rw [getNode_bumpHistory, getNode_addCompleted, hkey]
    by_cases hfam : agentFamily.contains node.type = true
    · rw [if_pos hfam]
      simp
    · rw [if_neg hfam]
      simp
  · simp only [StepOut.stateOf]
    rw [getNode_bumpHistory, getNode_addCompleted, hkey]
    by_cases hfam : agentFamily.contains node.type = true
    · rw [if_pos hfam]
      simp
    · rw [if_neg hfam]
      simp

/-- C3 counterexample: a node whose executor succeeds with an output
carrying a sleep tag with a non-numeric duration makes `execute` raise a
`ValueError` out of the loop (the `int(...)` of the dispatch handling runs
outside the per-node try/except) — even though the node itself completed. -/
theorem C3_counterexample :
    outC3.raisedError = some "invalid literal for int() with base 10: zz" ∧
    (nodeOf outC3 "a").map (·.status) = some .complete := by
  refine ⟨by decide, by decide⟩

/-- C3 witness: the amended theorem applied to a concrete admitted node
whose executor raises. -/
theorem C3_witness :
    (processAdmitted behExn wfC1.edges "hi" (initState wfC1 "hi" false) nodeW).continued =
      true ∧
    ((getNode (processAdmitted behExn wfC1.edges "hi"
      (initState wfC1 "hi" false) nodeW).stateOf nodeW.id).map (·.status)) =
      some .failed ∧
    ((getNode (processAdmitted behExn wfC1.edges "hi"
      (initState wfC1 "hi" false) nodeW).stateOf nodeW.id).bind (·.error)) =
      some "kaboom" := by
  have h := C3_executor_exception_contained behExn wfC1.edges "hi"
    (initState wfC1 "hi" false) nodeW "kaboom" (by decide) (by decide) (by decide) (by decide)
  exact ⟨h.2.1, h.2.2.2.1, h.2.2.2.2⟩

theorem execute_node_state (beh : NodeBeh) (st : EngineState) (it ctx : String)
    (node : WorkflowNode) (hn : getNode st node.id = some node)
    (hout : node.type ≠ .output) (hin : node.type ≠ .input) :
    getNode (execute_node beh st node.id it ctx).1 node.id =
      some (if agentFamily.contains node.type then
        { node with status := .running, iteration_count := node.iteration_count + 1 }
      else { node with status := .running }) := by
  simp only [execute_node]
  have h1 : getNode (setStatus st node.id .running) node.id =
      some { node with status := .running } := by
    rw [getNode_setStatus, hn]
    simp
  rw [h1]
  simp only [inner_execute_node]
  rw [if_neg (by simpa using hout), if_neg (by simpa using hin)]
  by_cases hfam : agentFamily.contains node.type = true
  · rw [if_pos hfam, if_pos hfam]
    cases beh node.id (invokeCount (setStatus st node.id NodeStatus.running).trace node.id) with
    | ok s =>
      rw [getNode_mapNode _ _ (fun m => { m with iteration_count := m.iteration_count + 1 })
        (fun _ => rfl) node.id]
      show ((getNode (setStatus st node.id .running) node.id).map _) = _
      rw [h1]
      simp
    | fail e =>
      rw [getNode_mapNode _ _ (fun m => { m with iteration_count := m.iteration_count + 1 })
        (fun _ => rfl) node.id]
      show ((getNode (setStatus st node.id .running) node.id).map _) = _
      rw [h1]
      simp
    | exn e =>
      rw [getNode_mapNode _ _ (fun m => { m with iteration_count := m.iteration_count + 1 })
        (fun _ => rfl) node.id]
      show ((getNode (setStatus st node.id .running) node.id).map _) = _
      rw [h1]
      simp
  · rw [if_neg hfam, if_neg hfam]
    cases beh node.id (invokeCount (setStatus st node.id NodeStatus.running).trace node.id) with
    | ok s =>
      show (getNode (setStatus st node.id .running) node.id) = _
      rw [h1]
    | fail e =>
      show (getNode (setStatus st node.id .running) node.id) = _
      rw [h1]
    | exn e =>
      show (getNode (setStatus st node.id .running) node.id) = _
      rw [h1]

/-- C9 (amended): a complete node dequeued again is re-executed only while
`iteration_count < max_iterations` — at the bound the recycling is logged
and skipped — and `iteration_count` is incremented (by exactly one per
executor dispatch) only for the agent-family kinds; but a node re-queued by
a `<dispatch_task>` tag is reset to idle, which bypasses the recycle guard,
so the bound and the invariant `iteration_count ≤ max_iterations` do not
hold for every run (see the counterexample). -/
theorem C9_iteration_bound_guard :
    (∀ (beh : NodeBeh) (interv : IntervBeh) (edges : List WorkflowEdge) (it : String)
        (st : EngineState) (nid : String) (node : WorkflowNode),
      getNode st nid = some node → node.status = .complete →
      node.max_iterations ≤ node.iteration_count →
      processNode beh interv edges it st nid =
        .cont (pushTrace st (.skipMaxIter nid)) false) ∧
    (∀ (beh : NodeBeh) (interv : IntervBeh) (edges : List WorkflowEdge) (it : String)
        (st : EngineState) (nid : String) (node : WorkflowNode),
      getNode st nid = some node → node.status = .complete →
      node.iteration_count < node.max_iterations →
      processNode beh interv edges it st nid =
        processReady beh interv edges it (setNodeOutput (setStatus st nid .idle) nid none) nid) ∧
    (∀ (beh : NodeBeh) (st : EngineState) (it ctx : String) (node : WorkflowNode),
      getNode st node.id = some node → node.type ≠ .output → node.type ≠ .input →
      getNode (execute_node beh st node.id it ctx).1 node.id =
        some (if agentFamily.contains node.type then
          { node with status := .running, iteration_count := node.iteration_count + 1 }
        else { node with status := .running })) := by
  refine ⟨?_, ?_, ?_⟩
  · intro beh interv edges it st nid node hn hst hle
    simp only [processNode, hn]
    rw [if_pos hst, if_neg (Nat.not_lt.mpr hle)]
  · intro beh interv edges it st nid node hn hst hlt
    simp only [processNode, hn]
    rw [if_pos hst, if_pos hlt]
  · intro beh st it ctx node hn hout hin
    exact execute_node_state beh st it ctx node hn hout hin

/-- C9 counterexample: in the concrete `wfC9` run, node `A` dispatches the
already-complete node `B` (whose `max_iterations` is 1); the dispatch
resets `B` to idle, so `B` is executed twice and ends with
`iteration_count = 2 > max_iterations = 1`. -/
theorem C9_counterexample :
    (nodeOf outC9 "B").map (·.iteration_count) = some 2 ∧
    (nodeOf outC9 "B").map (·.max_iterations) = some 1 ∧
    invokeCount outC9.traceOf "B" = 2 ∧
    (nodeOf outC9 "B").map (·.status) = some .complete := by
  refine ⟨by decide, by decide, by decide, by decide⟩

/-- C9 witness: the guard theorem applied at concrete states at and below
the bound, and the increment fact at a concrete agent node. -/
theorem C9_witness :
    processNode behC9 interv0 wfC9.edges "x" stSkip "B" =
      .cont (pushTrace stSkip (.skipMaxIter "B")) false ∧
    processNode behC9 interv0 wfC9.edges "x" stRecycle "B" =
      processReady behC9 interv0 wfC9.edges "x"
        (setNodeOutput (setStatus stRecycle "B" .idle) "B" none) "B" ∧
    getNode (execute_node behExn (initState wfC1 "hi" false) nodeW.id "hi" "ctx").1 nodeW.id =
      some (if agentFamily.contains nodeW.type then
        { nodeW with status := .running, iteration_count := nodeW.iteration_count + 1 }
      else { nodeW with status := .running }) := by
  refine ⟨?_, ?_, ?_⟩
  · exact C9_iteration_bound_guard.1 behC9 interv0 wfC9.edges "x" stSkip "B"
      nodeSkip (by decide) rfl (by decide)
  · exact C9_iteration_bound_guard.2.1 behC9 interv0 wfC9.edges "x" stRecycle "B"
      nodeRecycle (by decide) rfl (by decide)
  · exact C9_iteration_bound_guard.2.2 behExn (initState wfC1 "hi" false) "hi" "ctx" nodeW
      (by decide) (by decide) (by decide)

theorem getNode_id {st : EngineState} {id : String} {n : WorkflowNode}
    (h : getNode st id = some n) : n.id = id := by
  have h' : st.nodes.find? (fun m => m.id = id) = some n := h
  have := List.find?_some h'
  exact of_decide_eq_true this

theorem extendsNoInv_refl (st : EngineState) : extendsNoInv st st :=
  ⟨[], by simp, rfl⟩

theorem extendsNoInv_zero (st st' : EngineState) (h : st'.trace = st.trace) :
    extendsNoInv st st' := ⟨[], by simp [h], rfl⟩

theorem extendsNoInv_one (st st' : EngineState) (x : TraceEvent)
    (h : st'.trace = st.trace ++ [x]) (hx : x.isInvoke = false) : extendsNoInv st st' :=
  ⟨[x], h, by simp [noInv, hx]⟩

theorem extendsNoInv_two (st st' : EngineState) (x y : TraceEvent)
    (h : st'.trace = (st.trace ++ [x]) ++ [y])
    (hx : x.isInvoke = false) (hy : y.isInvoke = false) : extendsNoInv st st' := by
  refine ⟨[x, y], ?_, ?_⟩
  · rw [h, List.append_assoc]
    rfl
  · simp [noInv, hx, hy]

theorem extendsNoInv_trans {a b c : EngineState} (h1 : extendsNoInv a b)
    (h2 : extendsNoInv b c) : extendsNoInv a c := by
  obtain ⟨L1, e1, n1⟩ := h1
  obtain ⟨L2, e2, n2⟩ := h2
  refine ⟨L1 ++ L2, ?_, ?_⟩
  · rw [e2, e1, List.append_assoc]
  · simp only [noInv] at n1 n2 ⊢
    rw [List.all_append, n1, n2]
    rfl

theorem addCompleted_trace (st : EngineState) (id : String) :
    (addCompleted st id).trace = st.trace := by
  unfold addCompleted; split <;> rfl

theorem extendsNoInv_ite (c : Prop) [Decidable c] (st a b : EngineState)
    (h1 : extendsNoInv st a) (h2 : extendsNoInv st b) :
    extendsNoInv st (if c then a else b) := by
  split
  · exact h1
  · exact h2

theorem extendsNoInv_bump (st a : EngineState) (h : extendsNoInv st a) :
    extendsNoInv st { a with history := a.history + 1 } := by
  obtain ⟨L, hL, hn⟩ := h
  exact ⟨L, hL, hn⟩

theorem justified_append_noninv {edges : List WorkflowEdge} {tr L : List TraceEvent}
    (hn : noInv L = true) (hj : invokesJustified edges tr) :
    invokesJustified edges (tr ++ L) := by
  intro id C hm e hee ht hf
  rcases List.mem_append.1 hm with h1 | h1
  · exact hj id C h1 e hee ht hf
  · exfalso
    have := List.all_eq_true.1 hn _ h1
    simp [TraceEvent.isInvoke] at this

theorem justified_of_extends {edges : List WorkflowEdge} {st st' : EngineState}
    (h : extendsNoInv st st') (hj : invokesJustified edges st.trace) :
    invokesJustified edges st'.trace := by
  obtain ⟨L, he, hn⟩ := h
  rw [he]
  exact justified_append_noninv hn hj

theorem justified_zero {edges : List WorkflowEdge} {st st' : EngineState}
    (hj : invokesJustified edges st.trace) (h : st'.trace = st.trace) :
    invokesJustified edges st'.trace := by
  rw [h]; exact hj

theorem justified_one {edges : List WorkflowEdge} {st st' : EngineState} {x : TraceEvent}
    (hj : invokesJustified edges st.trace) (h : st'.trace = st.trace ++ [x])
    (hx : x.isInvoke = false) : invokesJustified edges st'.trace :=
  justified_of_extends (extendsNoInv_one st st' x h hx) hj

theorem justified_two {edges : List WorkflowEdge} {st st' : EngineState} {x y : TraceEvent}
    (hj : invokesJustified edges st.trace) (h : st'.trace = (st.trace ++ [x]) ++ [y])
    (hx : x.isInvoke = false) (hy : y.isInvoke = false) :
    invokesJustified edges st'.trace :=
  justified_of_extends (extendsNoInv_two st st' x y h hx hy) hj

theorem justified_append_invoke {edges : List WorkflowEdge} {tr : List TraceEvent}
    {nid : String} {C : List String}
    (hj : invokesJustified edges tr)
    (hg : ∀ e ∈ edges, e.target_id = nid → e.feedback = false → e.source_id ∈ C) :
    invokesJustified edges (tr ++ [TraceEvent.invoke nid C]) := by
  intro id C' hm e he ht hf
  rcases List.mem_append.1 hm with h1 | h1
  · exact hj id C' h1 e he ht hf
  · simp only [List.mem_singleton] at h1
    cases h1
    exact hg e he ht hf

theorem extendsNoInv_applyDynInstr (st : EngineState) (i : DynInstr) :
    extendsNoInv st (applyDynInstr st i).1 := by
  cases i with
  | sleep d =>
    simp only [applyDynInstr]
    split
    · exact extendsNoInv_one st _ _ rfl rfl
    · exact extendsNoInv_refl st
  | dispatch target inp src =>
    simp only [applyDynInstr]
    split
    · rename_i tn _
      split
      · exact extendsNoInv_one st _ (.setStatus tn.id .idle) rfl rfl
      · exact extendsNoInv_two st _ (.setStatus tn.id .idle) (.enqueue tn.id) rfl rfl rfl
    · exact extendsNoInv_refl st

theorem extendsNoInv_applyDynList (l : List DynInstr) :
    ∀ st : EngineState, extendsNoInv st (applyDynList st l).1 := by
  induction l with
  | nil => intro st; exact extendsNoInv_refl st
  | cons i rest ih =>
    intro st
    simp only [applyDynList]
    cases h : applyDynInstr st i with
    | mk st1 r =>
      have h1 : extendsNoInv st st1 := by
        have h2 := extendsNoInv_applyDynInstr st i
        rw [h] at h2; exact h2
      cases r with
      | none => exact extendsNoInv_trans h1 (ih st1)
      | some e => exact h1

theorem extendsNoInv_afterExec (edges : List WorkflowEdge) (st : EngineState)
    (r : ExecResult) (nid : String) :
    extendsNoInv st (afterExec edges st r nid).stateOf := by
  have h0 : extendsNoInv st (addCompleted st nid) :=
    extendsNoInv_zero _ _ (by unfold addCompleted; split <;> rfl)
  simp only [afterExec]
  cases hx : (if r.success ∧ r.output.getD "" ≠ "" then
      applyDynList (addCompleted st nid) (process_dispatch_tags (r.output.getD "") nid)
    else (addCompleted st nid, none)) with
  | mk st2 r2 =>
    have h2 : extendsNoInv st st2 := by
      by_cases hc : r.success ∧ r.output.getD "" ≠ ""
      · rw [if_pos hc] at hx
        have h3 := extendsNoInv_applyDynList
          (process_dispatch_tags (r.output.getD "") nid) (addCompleted st nid)
        rw [hx] at h3
        exact extendsNoInv_trans h0 h3
      · rw [if_neg hc] at hx
        cases hx
        exact h0
    cases r2 with
    | some e => simpa [StepOut.stateOf] using h2
    | none =>
      cases hg : getNode st2 nid with
      | none =>
        simp only [StepOut.stateOf]
        exact extendsNoInv_bump st _ h2
      | some n =>
        simp only [StepOut.stateOf]
        refine extendsNoInv_bump st _ ?_
        refine extendsNoInv_ite _ st _ _ ?_ h2
        exact extendsNoInv_trans h2 (extendsNoInv_one st2 _ _ rfl rfl)

theorem inner_trace (beh : NodeBeh) (st : EngineState) (n : WorkflowNode)
    (it ctx : String) :
    ((inner_execute_node beh st n it ctx).1).trace =
      st.trace ++ [TraceEvent.invoke n.id st.completed] := by
  simp only [inner_execute_node]
  split
  · rfl
  · split
    · rfl
    · split <;> split <;> rfl

theorem execute_node_trace_cases (beh : NodeBeh) (st : EngineState) (nid it ctx : String) :
    ((execute_node beh st nid it ctx).1).trace
      = st.trace ++ [TraceEvent.setStatus nid NodeStatus.running] ∨
    ((execute_node beh st nid it ctx).1).trace
      = (st.trace ++ [TraceEvent.setStatus nid NodeStatus.running])
          ++ [TraceEvent.invoke nid st.completed] := by
  cases hg : getNode (setStatus st nid .running) nid with
  | none =>
    simp only [execute_node, hg]
    exact Or.inl rfl
  | some n =>
    have hid : n.id = nid := getNode_id hg
    right
    simp only [execute_node, hg]
    cases hi : inner_execute_node beh (setStatus st nid .running) n it ctx with
    | mk st2 o =>
      have ht := inner_trace beh (setStatus st nid .running) n it ctx
      rw [hi] at ht
      have ht2 : st2.trace
          = (st.trace ++ [TraceEvent.setStatus nid NodeStatus.running])
              ++ [TraceEvent.invoke n.id st.completed] := ht
      cases o with
      | res r =>
        show st2.trace = _
        rw [ht2, hid]
      | raisedExec e =>
        show st2.trace = _
        rw [ht2, hid]

theorem required_all_justifies (edges : List WorkflowEdge) (completed : List String)
    (nid : String)
    (h : ((edges.filter (fun e => e.target_id = nid ∧ ¬ e.feedback)).map
          (fun e => e.source_id)).all (fun p => completed.contains p) = true) :
    ∀ e ∈ edges, e.target_id = nid → e.feedback = false → e.source_id ∈ completed := by
  intro e he ht hf
  have hm : e.source_id ∈ (edges.filter (fun e => e.target_id = nid ∧ ¬ e.feedback)).map
      (fun e => e.source_id) := by
    refine List.mem_map.2 ⟨e, List.mem_filter.2 ⟨he, ?_⟩, rfl⟩
    simp [ht, hf]
  have h2 := List.all_eq_true.1 h _ hm
  exact List.elem_iff.1 h2

theorem processAdmitted_justified (beh : NodeBeh) (edges : List WorkflowEdge)
    (it : String) (st : EngineState) (n : WorkflowNode)
    (hj : invokesJustified edges st.trace)
    (hg : ∀ e ∈ edges, e.target_id = n.id → e.feedback = false →
      e.source_id ∈ st.completed) :
    invokesJustified edges (processAdmitted beh edges it st n).stateOf.trace := by
  simp only [processAdmitted]
  cases hp : execute_node beh st n.id it (buildContext st edges n.id) with
  | mk st1 r =>
    have hj1 : invokesJustified edges st1.trace := by
      have hc := execute_node_trace_cases beh st n.id it (buildContext st edges n.id)
      rw [hp] at hc
      rcases hc with h | h
      · rw [show st1.trace = ((st1, r).1).trace from rfl, h]
        exact justified_append_noninv rfl hj
      · rw [show st1.trace = ((st1, r).1).trace from rfl, h]
        exact justified_append_invoke (justified_append_noninv rfl hj) hg
    split
    · split
      · simp only [StepOut.stateOf]
        exact justified_of_extends
          (extendsNoInv_two st1 _ (.setStatus n.id .waiting_for_approval)
            (.enqueue n.id) rfl rfl rfl) hj1
      · exact justified_of_extends
          (extendsNoInv_trans (extendsNoInv_one st1 _ (.setStatus n.id .complete) rfl rfl)
            (extendsNoInv_afterExec edges _ _ n.id)) hj1
    · exact justified_of_extends
        (extendsNoInv_trans (extendsNoInv_one st1 _ (.setStatus n.id .failed) rfl rfl)
          (extendsNoInv_afterExec edges _ _ n.id)) hj1

theorem processReady_justified (beh : NodeBeh) (interv : IntervBeh)
    (edges : List WorkflowEdge) (it : String) (st : EngineState) (nid : String)
    (hj : invokesJustified edges st.trace) :
    invokesJustified edges (processReady beh interv edges it st nid).stateOf.trace := by
  cases hg : getNode st nid with
  | none =>
    simp only [processReady, hg]
    simpa [StepOut.stateOf] using hj
  | some node =>
    simp only [processReady, hg]
    split
    · exact justified_one hj rfl rfl
    · rename_i hall
      split
      · split
        · simp only [StepOut.stateOf]
          refine foldl_preserves (fun s : EngineState => invokesJustified edges s.trace) _ ?_
            (get_successors edges nid) _ ?_
          · intro a b ha
            show invokesJustified edges
              (if a.completed.contains b = true ∨ a.queue.contains b = true then a
               else enqueue a b).trace
            split
            · exact ha
            · exact justified_one ha rfl rfl
          · exact justified_one hj ((addCompleted_trace _ _).trans rfl) rfl
        · exact justified_one hj rfl rfl
        · exact justified_one hj rfl rfl
      · have hid : node.id = nid := getNode_id hg
        refine processAdmitted_justified beh edges it st node hj ?_
        rw [hid]
        exact required_all_justifies edges st.completed nid (not_not.mp hall)

theorem processNode_justified (beh : NodeBeh) (interv : IntervBeh)
    (edges : List WorkflowEdge) (it : String) (st : EngineState) (nid : String)
    (hj : invokesJustified edges st.trace) :
    invokesJustified edges (processNode beh interv edges it st nid).stateOf.trace := by
  cases hg : getNode st nid with
  | none =>
    simp only [processNode, hg]
    simpa [StepOut.stateOf] using hj
  | some node =>
    simp only [processNode, hg]
    split
    · split
      · exact processReady_justified beh interv edges it _ nid (justified_one hj rfl rfl)
      · exact justified_one hj rfl rfl
    · exact processReady_justified beh interv edges it st nid hj

theorem passIter_justified (beh : NodeBeh) (interv : IntervBeh)
    (edges : List WorkflowEdge) (it : String) :
    ∀ (k : Nat) (st : EngineState) (b : Bool), invokesJustified edges st.trace →
    invokesJustified edges (passIter beh interv edges it k st b).stateOf.trace := by
  intro k
  induction k with
  | zero => intro st b hj; simpa [passIter, PassOut.stateOf] using hj
  | succ k ih =>
    intro st b hj
    cases hq : st.queue with
    | nil =>
      simp only [passIter, hq]
      simpa [PassOut.stateOf] using hj
    | cons nid rest =>
      simp only [passIter, hq]
      split
      · rename_i st' p heq
        refine ih st' (b || p) ?_
        have h2 := processNode_justified beh interv edges it { st with queue := rest } nid hj
        rw [heq] at h2
        simpa [StepOut.stateOf] using h2
      · rename_i st' e heq
        have h2 := processNode_justified beh interv edges it { st with queue := rest } nid hj
        rw [heq] at h2
        simpa [PassOut.stateOf, StepOut.stateOf] using h2

theorem runLoop_justified (beh : NodeBeh) (interv : IntervBeh)
    (edges : List WorkflowEdge) (it : String) :
    ∀ (fuel : Nat) (st : EngineState), invokesJustified edges st.trace →
    invokesJustified edges (runLoop beh interv edges it fuel st).finalState.trace := by
  intro fuel
  induction fuel with
  | zero => intro st hj; simpa [runLoop, RunOutcome.finalState] using hj
  | succ fuel ih =>
    intro st hj
    cases hq : st.queue with
    | nil =>
      simp only [runLoop, hq]
      simpa [RunOutcome.finalState] using hj
    | cons a as =>
      simp only [runLoop, hq]
      split
      · rename_i st' e heq
        have h := passIter_justified beh interv edges it (a :: as).length st false hj
        rw [heq] at h
        simpa [RunOutcome.finalState, PassOut.stateOf] using h
      · rename_i st' prog heq
        have h := passIter_justified beh interv edges it (a :: as).length st false hj
        rw [heq] at h
        simp only [PassOut.stateOf] at h
        split
        · exact ih _ (justified_one h rfl rfl)
        · exact ih _ h

/-- C1 (amended): in every run, a node is dispatched to its executor only
when every source of a non-feedback edge targeting it is in the engine's
completed set at that moment — the set snapshot recorded with the
invocation event.  (The completed set is `completed.add`-ed for failed
nodes too, so "in the completed set" is weaker than "has status complete";
see the counterexample.)  Feedback edges never contribute to the check. -/
theorem C1_readiness_invariant (w : Workflow) (beh : NodeBeh) (interv : IntervBeh)
    (inp : String) (resume : Bool) (fuel : Nat) :
    invokesJustified w.edges (execute w beh interv inp resume fuel).traceOf := by
  have h0 : invokesJustified w.edges (initState w inp resume).trace := by
    have ht : (initState w inp resume).trace = [] := rfl
    intro id C hm
    rw [ht] at hm
    exact absurd hm (List.not_mem_nil _)
  exact runLoop_justified beh interv w.edges inp fuel _ h0

/-- C1 counterexample: in `wfC1` the non-feedback edge `u → v` admits `v`
once `u` is merely in the completed set — `u`'s executor failed, `u` never
has status complete, yet `v` is invoked with completed snapshot
`["w", "u"]`. -/
theorem C1_counterexample :
    ({ source_id := "u", target_id := "v" } : WorkflowEdge) ∈ wfC1.edges ∧
    ({ source_id := "u", target_id := "v" } : WorkflowEdge).feedback = false ∧
    TraceEvent.invoke "v" ["w", "u"] ∈ outC1.traceOf ∧
    (nodeOf outC1 "u").map (fun n => n.status) = some .failed ∧
    outC1.traceOf.all (fun e => e ≠ .setStatus "u" .complete) = true := by
  refine ⟨by decide, by decide, by decide, by decide, by decide⟩

theorem startsWithL_nil (x : List Char) : startsWithL x [] = true := by
  cases x <;> rfl

theorem startsWithL_append (p : List Char) : ∀ r : List Char,
    startsWithL (p ++ r) p = true := by
  induction p with
  | nil => intro r; exact startsWithL_nil ([] ++ r)
  | cons c cs ih => intro r; simp [startsWithL, ih]

theorem exhausted_msg_head (err : String) :
    pyStartsWith ("All failover attempts exhausted. Last error: " ++ err)
      "All failover attempts exhausted." = true := by
  show startsWithL ("All failover attempts exhausted. Last error: " ++ err).data
    ("All failover attempts exhausted.").data = true
  have hdata : ("All failover attempts exhausted. Last error: " ++ err).data
      = ("All failover attempts exhausted.").data ++ (" Last error: ".data ++ err.data) := by
    have hsplit : ("All failover attempts exhausted. Last error: ").data
        = ("All failover attempts exhausted.").data ++ (" Last error: ").data := by decide
    show ("All failover attempts exhausted. Last error: ").data ++ err.data = _
    rw [hsplit, List.append_assoc]
  rw [hdata]
  exact startsWithL_append _ _

theorem foCalls_append (a b : List FoEvent) :
    foCalls (a ++ b) = foCalls a ++ foCalls b := by
  simp [foCalls, List.filterMap_append]

theorem callPending_append (b : List FoEvent) : ∀ (a : List FoEvent) (p : Bool),
    callPending p (a ++ b) = callPending (callPending p a) b := by
  intro a
  induction a with
  | nil => intro p; rfl
  | cons e r ih => intro p; cases e <;> simp [callPending, ih]

theorem nscbs_append (b : List FoEvent) : ∀ (a : List FoEvent) (p : Bool),
    noSecondCallBeforeSleep p (a ++ b)
      = (noSecondCallBeforeSleep p a && noSecondCallBeforeSleep (callPending p a) b) := by
  intro a
  induction a with
  | nil => intro p; simp [noSecondCallBeforeSleep, callPending]
  | cons e r ih =>
    intro p
    cases e <;> simp [noSecondCallBeforeSleep, callPending, ih, Bool.and_assoc]

theorem sleepsAllEq_append (d : Nat) (a b : List FoEvent) :
    sleepsAllEq d (a ++ b) = (sleepsAllEq d a && sleepsAllEq d b) := by
  simp [sleepsAllEq, List.all_append]

theorem dropLast_getLastD {α : Type} (d : α) : ∀ l : List α, l ≠ [] →
    l.dropLast ++ [l.getLastD d] = l := by
  intro l
  induction l with
  | nil => intro h; exact absurd rfl h
  | cons a r ih =>
    intro _
    cases r with
    | nil => rfl
    | cons b s =>
      have h2 := ih (by simp)
      show a :: ((b :: s).dropLast ++ [(b :: s).getLastD d]) = a :: b :: s
      rw [h2]

theorem foFailStep_inl {tier : String → String → Option (String × String)} {now : Int}
    {cat : Option String} {m : FoManager} {trace : List FoEvent}
    {attempts : List (String × String)} {c : String × String} {err : String}
    {out : FoManager × List FoEvent × FoResult}
    (h : foFailStep tier now cat m trace attempts c err = .inl out) :
    out.1.config = m.config ∧ out.2.1 = trace ∧
    out.2.2 = FoResult.exhausted
      ("All failover attempts exhausted. Last error: " ++ err) c.1 c.2 := by
  simp only [foFailStep] at h
  cases halg : alGet m.providers (c.1 ++ "/" ++ c.2) with
  | none =>
    simp only [halg] at h
    split at h
    · cases h
    · cases h
      exact ⟨rfl, rfl, rfl⟩
  | some ph =>
    simp only [halg] at h
    split at h
    · cases h
    · cases h
      exact ⟨rfl, rfl, rfl⟩

theorem foFailStep_inr {tier : String → String → Option (String × String)} {now : Int}
    {cat : Option String} {m : FoManager} {trace : List FoEvent}
    {attempts : List (String × String)} {c : String × String} {err : String}
    {m2 : FoManager} {tr2 : List FoEvent} {att2 : List (String × String)}
    (h : foFailStep tier now cat m trace attempts c err = .inr (m2, tr2, att2)) :
    m2.config = m.config ∧
    ∃ nb : String × String,
      att2 = attempts ++ [nb] ∧
      (∃ rs : String, tr2 = trace ++ [.failoverCb c.1 c.2 nb.1 nb.2 rs,
        .sleepRetry m.config.retry_delay]) ∧
      attempts.any (fun a => a.1 ++ "/" ++ a.2 = nb.1 ++ "/" ++ nb.2) = false := by
  simp only [foFailStep] at h
  cases halg : alGet m.providers (c.1 ++ "/" ++ c.2) with
  | none =>
    simp only [halg] at h
    split at h
    · rename_i nb hfind
      cases h
      have hp := List.find?_some hfind
      rw [Bool.and_eq_true] at hp
      refine ⟨rfl, nb, rfl, ⟨(detect_failure_reason err).value, rfl⟩, ?_⟩
      simpa using hp.1
    · cases h
  | some ph =>
    simp only [halg] at h
    split at h
    · rename_i nb hfind
      cases h
      have hp := List.find?_some hfind
      rw [Bool.and_eq_true] at hp
      refine ⟨rfl, nb, rfl, ⟨(detect_failure_reason err).value, rfl⟩, ?_⟩
      simpa using hp.1
    · cases h

theorem foLoop_spec (tier : String → String → Option (String × String)) (now : Int)
    (task : String → String → TaskRes) (cat : Option String) :
    ∀ (fuel : Nat) (m : FoManager) (trace : List FoEvent)
      (attempts : List (String × String)) (lerr : Option String)
      (m' : FoManager) (tr' : List FoEvent) (res : FoResult),
    foLoop tier now task cat fuel m trace attempts lerr = (m', tr', res) →
    attempts ≠ [] →
    foCalls trace = attempts.dropLast →
    (attempts.map (fun a => a.1 ++ "/" ++ a.2)).Nodup →
    noSecondCallBeforeSleep false trace = true →
    callPending false trace = false →
    sleepsAllEq m.config.retry_delay trace = true →
    m'.config = m.config ∧
    (foCalls tr').length ≤ (foCalls trace).length + fuel ∧
    ((foCalls tr').map (fun a => a.1 ++ "/" ++ a.2)).Nodup ∧
    noSecondCallBeforeSleep false tr' = true ∧
    sleepsAllEq m.config.retry_delay tr' = true ∧
    (∀ s fp fm, res = .success s fp fm →
      (foCalls tr').getLast? = some (fp, fm) ∧ task fp fm = .val s ∧
      pyStartsWith s "Error:" = false) ∧
    (∀ msg fp fm, res = .exhausted msg fp fm →
      pyStartsWith msg "All failover attempts exhausted." = true ∧
      ((foCalls tr').getLast? = some (fp, fm) ∨
        (foCalls tr').length = (foCalls trace).length + fuel)) := by
  intro fuel
  induction fuel with
  | zero =>
    intro m trace attempts lerr m' tr' res h hne hc hnd hns hcp hse
    simp only [foLoop] at h
    cases h
    refine ⟨rfl, by omega, ?_, hns, hse, ?_, ?_⟩
    · rw [hc]
      exact hnd.sublist (List.Sublist.map _ (List.dropLast_sublist attempts))
    · intro s fp fm hres
      cases hres
    · intro msg fp fm hres
      cases hres
      exact ⟨exhausted_msg_head _, Or.inr (by omega)⟩
  | succ fuel ih =>
    intro m trace attempts lerr m' tr' res h hne hc hnd hns hcp hse
    have hcall : foCalls (trace ++
        [FoEvent.call (attempts.getLastD ("", "")).1 (attempts.getLastD ("", "")).2])
        = attempts := by
      rw [foCalls_append, hc]
      exact dropLast_getLastD ("", "") attempts hne
    have hns1 : noSecondCallBeforeSleep false (trace ++
        [FoEvent.call (attempts.getLastD ("", "")).1 (attempts.getLastD ("", "")).2]) = true := by
      rw [nscbs_append, hns, hcp]
      rfl
    have hse1 : ∀ d, sleepsAllEq d trace = true → sleepsAllEq d (trace ++
        [FoEvent.call (attempts.getLastD ("", "")).1 (attempts.getLastD ("", "")).2]) = true := by
      intro d hd
      rw [sleepsAllEq_append, hd]
      rfl
    have hlast : (foCalls (trace ++
        [FoEvent.call (attempts.getLastD ("", "")).1 (attempts.getLastD ("", "")).2])).getLast?
        = some (attempts.getLastD ("", "")) := by
      rw [foCalls_append]
      exact List.getLast?_concat _
    have hlen1 : (foCalls (trace ++
        [FoEvent.call (attempts.getLastD ("", "")).1 (attempts.getLastD ("", "")).2])).length
        = (foCalls trace).length + 1 := by
      rw [foCalls_append, List.length_append]
      rfl
    simp only [foLoop] at h
    split at h
    · rename_i s hts
      split at h
      · -- the task returned an "Error:" string: the failure branch runs
        split at h
        · rename_i final hfs
          obtain ⟨f1, f2, f3⟩ := foFailStep_inl hfs
          have hm : final.1 = m' := by rw [h]
          have htr : final.2.1 = tr' := by rw [h]
          have hres : final.2.2 = res := by rw [h]
          subst hm htr hres
          rw [f2, f3]
          refine ⟨f1, ?_, ?_, hns1, hse1 _ hse, ?_, ?_⟩
          · rw [hlen1]; omega
          · rw [hcall]; exact hnd
          · intro s' fp fm hres2; cases hres2
          · intro msg fp fm hres2
            cases hres2
            exact ⟨exhausted_msg_head _, Or.inl hlast⟩
        · rename_i m2 tr2 att2 hfs
          obtain ⟨hcfg, nb, hatt, ⟨rs, htr2⟩, hany⟩ := foFailStep_inr hfs
          have hne2 : att2 ≠ [] := by rw [hatt]; simp
          have hc2 : foCalls tr2 = att2.dropLast := by
            rw [htr2, foCalls_append, hcall, hatt, List.dropLast_concat]
            simp [foCalls]
          have hnb : (nb.1 ++ "/" ++ nb.2) ∉ attempts.map (fun a => a.1 ++ "/" ++ a.2) := by
            intro hmem
            obtain ⟨a, ha, hk⟩ := List.mem_map.1 hmem
            have hcontra : attempts.any (fun a => a.1 ++ "/" ++ a.2 = nb.1 ++ "/" ++ nb.2)
                = true := List.any_eq_true.2 ⟨a, ha, by simp [hk]⟩
            rw [hany] at hcontra
            cases hcontra
          have hnd2 : (att2.map (fun a => a.1 ++ "/" ++ a.2)).Nodup := by
            rw [hatt, List.map_append]
            refine List.Nodup.append hnd (List.nodup_singleton _) ?_
            intro x hx hx2
            simp only [List.map_cons, List.map_nil, List.mem_singleton] at hx2
            subst hx2
            exact hnb hx
          have hns2 : noSecondCallBeforeSleep false tr2 = true := by
            rw [htr2, nscbs_append, hns1, callPending_append, hcp]
            rfl
          have hcp2 : callPending false tr2 = false := by
            rw [htr2, callPending_append]
            rfl
          have hse2 : sleepsAllEq m2.config.retry_delay tr2 = true := by
            rw [hcfg, htr2, sleepsAllEq_append, hse1 _ hse]
            simp [sleepsAllEq]
          have IH := ih m2 tr2 att2 (some s) m' tr' res h hne2 hc2 hnd2 hns2 hcp2 hse2
          obtain ⟨i1, i2, i3, i4, i5, i6, i7⟩ := IH
          have hl2 : (foCalls tr2).length = (foCalls trace).length + 1 := by
            have hpos : 0 < attempts.length := List.length_pos.2 hne
            have h0 : foCalls tr2 = attempts := by rw [hc2, hatt, List.dropLast_concat]
            rw [h0, hc, List.length_dropLast]
            omega
          refine ⟨i1.trans hcfg, by omega, i3, i4, ?_, i6, ?_⟩
          · rw [← hcfg]; exact i5
          · intro msg fp fm hres2
            obtain ⟨ipre, idisj⟩ := i7 msg fp fm hres2
            refine ⟨ipre, ?_⟩
            rcases idisj with hL | hR
            · exact Or.inl hL
            · right; omega
      · -- genuine success: the result triple names the succeeding attempt
        rename_i herr
        cases h
        refine ⟨?_, ?_, ?_, hns1, hse1 _ hse, ?_, ?_⟩
        · split <;> rfl
        · rw [hlen1]; omega
        · rw [hcall]; exact hnd
        · intro s' fp fm hres2
          cases hres2
          refine ⟨hlast, hts, ?_⟩
          simpa using herr
        · intro msg fp fm hres2; cases hres2
    · rename_i e hte
      split at h
      · rename_i final hfs
        obtain ⟨f1, f2, f3⟩ := foFailStep_inl hfs
        have hm : final.1 = m' := by rw [h]
        have htr : final.2.1 = tr' := by rw [h]
        have hres : final.2.2 = res := by rw [h]
        subst hm htr hres
        rw [f2, f3]
        refine ⟨f1, ?_, ?_, hns1, hse1 _ hse, ?_, ?_⟩
        · rw [hlen1]; omega
        · rw [hcall]; exact hnd
        · intro s' fp fm hres2; cases hres2
        · intro msg fp fm hres2
          cases hres2
          exact ⟨exhausted_msg_head _, Or.inl hlast⟩
      · rename_i m2 tr2 att2 hfs
        obtain ⟨hcfg, nb, hatt, ⟨rs, htr2⟩, hany⟩ := foFailStep_inr hfs
        have hne2 : att2 ≠ [] := by rw [hatt]; simp
        have hc2 : foCalls tr2 = att2.dropLast := by
          rw [htr2, foCalls_append, hcall, hatt, List.dropLast_concat]
          simp [foCalls]
        have hnb : (nb.1 ++ "/" ++ nb.2) ∉ attempts.map (fun a => a.1 ++ "/" ++ a.2) := by
          intro hmem
          obtain ⟨a, ha, hk⟩ := List.mem_map.1 hmem
          have hcontra : attempts.any (fun a => a.1 ++ "/" ++ a.2 = nb.1 ++ "/" ++ nb.2)
              = true := List.any_eq_true.2 ⟨a, ha, by simp [hk]⟩
          rw [hany] at hcontra
          cases hcontra
        have hnd2 : (att2.map (fun a => a.1 ++ "/" ++ a.2)).Nodup := by
          rw [hatt, List.map_append]
          refine List.Nodup.append hnd (List.nodup_singleton _) ?_
          intro x hx hx2
          simp only [List.map_cons, List.map_nil, List.mem_singleton] at hx2
          subst hx2
          exact hnb hx
        have hns2 : noSecondCallBeforeSleep false tr2 = true := by
          rw [htr2, nscbs_append, hns1, callPending_append, hcp]
          rfl
        have hcp2 : callPending false tr2 = false := by
          rw [htr2, callPending_append]
          rfl
        have hse2 : sleepsAllEq m2.config.retry_delay tr2 = true := by
          rw [hcfg, htr2, sleepsAllEq_append, hse1 _ hse]
          simp [sleepsAllEq]
        have IH := ih m2 tr2 att2 (some e) m' tr' res h hne2 hc2 hnd2 hns2 hcp2 hse2
        obtain ⟨i1, i2, i3, i4, i5, i6, i7⟩ := IH
        have hl2 : (foCalls tr2).length = (foCalls trace).length + 1 := by
          have hpos : 0 < attempts.length := List.length_pos.2 hne
          have h0 : foCalls tr2 = attempts := by rw [hc2, hatt, List.dropLast_concat]
          rw [h0, hc, List.length_dropLast]
          omega
        refine ⟨i1.trans hcfg, by omega, i3, i4, ?_, i6, ?_⟩
        · rw [← hcfg]; exact i5
        · intro msg fp fm hres2
          obtain ⟨ipre, idisj⟩ := i7 msg fp fm hres2
          refine ⟨ipre, ?_⟩
          rcases idisj with hL | hR
          · exact Or.inl hL
          · right; omega

theorem execute_with_failover_loop {tier : String → String → Option (String × String)}
    {now : Int} {m : FoManager} {p mo : String} {task : String → String → TaskRes}
    {cat : Option String} {m' : FoManager} {tr : List FoEvent} {res : FoResult}
    (hen : m.config.enabled = true)
    (h : execute_with_failover tier now m p mo task cat = .returned m' tr res) :
    foLoop tier now task cat (m.config.max_retries + 1) m [] [(p, mo)] none
      = (m', tr, res) := by
  simp only [execute_with_failover, hen, eq_self_iff_true, not_true, if_false] at h
  rcases hfl : foLoop tier now task cat (m.config.max_retries + 1) m [] [(p, mo)] none
    with ⟨m2, t2, r2⟩
  rw [hfl] at h
  have h2 : FoOutcome.returned m2 t2 r2 = FoOutcome.returned m' tr res := h
  cases h2
  rfl

/-- C5 (amended): with failover enabled, `execute_with_failover` performs
at most `max_retries + 1` — not `max_retries` — `(provider, model)`
attempts (the loop is `for attempt in range(max_retries + 1)`), never
re-attempts a provider/model key already attempted, sleeps `retry_delay`
between consecutive attempts (defaults: `max_retries = 3`,
`retry_delay = 1`), and on success returns the triple of the attempt that
produced the result. -/
theorem C5_failover_retry_semantics (tier : String → String → Option (String × String))
    (now : Int) (m : FoManager) (p mo : String) (task : String → String → TaskRes)
    (cat : Option String) (m' : FoManager) (tr : List FoEvent) (res : FoResult)
    (hen : m.config.enabled = true)
    (h : execute_with_failover tier now m p mo task cat = .returned m' tr res) :
    defaultFailoverConfig.max_retries = 3 ∧ defaultFailoverConfig.retry_delay = 1 ∧
    (foCalls tr).length ≤ m.config.max_retries + 1 ∧
    ((foCalls tr).map (fun a => a.1 ++ "/" ++ a.2)).Nodup ∧
    noSecondCallBeforeSleep false tr = true ∧
    sleepsAllEq m.config.retry_delay tr = true ∧
    (∀ s fp fm, res = .success s fp fm →
      (foCalls tr).getLast? = some (fp, fm) ∧ task fp fm = .val s ∧
      pyStartsWith s "Error:" = false) := by
  have hfl := execute_with_failover_loop hen h
  obtain ⟨g1, g2, g3, g4, g5, g6, g7⟩ := foLoop_spec tier now task cat
    (m.config.max_retries + 1) m [] [(p, mo)] none m' tr res hfl
    (by simp) rfl (by simp) rfl rfl rfl
  refine ⟨rfl, rfl, ?_, g3, g4, g5, g6⟩
  simpa [foCalls] using g2

/-- C5 counterexample: with the default `max_retries = 3` the run `outC5`
performs four distinct attempts — `range(max_retries + 1)` iterates
`max_retries + 1` times, so "at most `max_retries` attempts" is false. -/
theorem C5_counterexample :
    mgrC5.config.max_retries = 3 ∧
    (foCalls outC5.traceOf).length = 4 ∧
    ((foCalls outC5.traceOf).map (fun a => a.1 ++ "/" ++ a.2)).Nodup ∧
    noSecondCallBeforeSleep false outC5.traceOf = true := by
  refine ⟨by decide, by decide, by decide, by decide⟩

/-- C5 witness: the amended theorem applied to a run whose first attempt
succeeds. -/
theorem C5_witness :
    (foCalls [FoEvent.call "p" "m"]).length ≤ ({} : FoManager).config.max_retries + 1 ∧
    ((foCalls [FoEvent.call "p" "m"]).map (fun a => a.1 ++ "/" ++ a.2)).Nodup ∧
    noSecondCallBeforeSleep false [FoEvent.call "p" "m"] = true ∧
    (foCalls [FoEvent.call "p" "m"]).getLast? = some ("p", "m") ∧
    taskC5w "p" "m" = .val "ok" ∧ pyStartsWith "ok" "Error:" = false := by
  have hh := C5_failover_retry_semantics tier0 1000 {} "p" "m" taskC5w none
    {} [FoEvent.call "p" "m"] (.success "ok" "p" "m") rfl (by decide)
  obtain ⟨s1, s2, s3⟩ := hh.2.2.2.2.2.2 "ok" "p" "m" rfl
  exact ⟨hh.2.2.1, hh.2.2.2.1, hh.2.2.2.2.1, s1, s2, s3⟩

/-- C10: with failover enabled `execute_with_failover` never raises to its
caller; on exhaustion it returns, as an ordinary result value, a string
beginning "All failover attempts exhausted." together with the
last-attempted `(provider, model)` — the final call of the trace when the
candidates ran out, otherwise the run used its full `max_retries + 1`
calls — and `AgentNode` binds that string to the variable holding the
model output: with no agreement rules the agent loop reports success with
the exhaustion message as its output. -/
theorem C10_exhaustion_is_output (tier : String → String → Option (String × String))
    (now : Int) (m : FoManager) (p mo : String) (task : Nat → String → String → TaskRes)
    (cat : Option String) (m' : FoManager) (tr : List FoEvent) (msg fp fm : String)
    (O : PyLibOracle)
    (hen : m.config.enabled = true)
    (h : execute_with_failover tier now m p mo (task 0) cat
        = .returned m' tr (.exhausted msg fp fm)) :
    pyStartsWith msg "All failover attempts exhausted." = true ∧
    ((foCalls tr).getLast? = some (fp, fm) ∨
      (foCalls tr).length = m.config.max_retries + 1) ∧
    (∀ k : Nat, agent_execute_loop O tier now cat p mo task [] (k + 1) 0 m
      = { ok := true, output := some (strip_thinking msg) }) ∧
    (∀ (m0 : FoManager) (p0 mo0 : String) (task0 : String → String → TaskRes)
       (cat0 : Option String), m0.config.enabled = true →
       ∃ m1 tr1 res1, execute_with_failover tier now m0 p0 mo0 task0 cat0
          = .returned m1 tr1 res1) := by
  have hfl := execute_with_failover_loop hen h
  obtain ⟨g1, g2, g3, g4, g5, g6, g7⟩ := foLoop_spec tier now (task 0) cat
    (m.config.max_retries + 1) m [] [(p, mo)] none m' tr (.exhausted msg fp fm) hfl
    (by simp) rfl (by simp) rfl rfl rfl
  obtain ⟨hpre, hdisj⟩ := g7 msg fp fm rfl
  refine ⟨hpre, ?_, ?_, ?_⟩
  · rcases hdisj with hL | hR
    · exact Or.inl hL
    · right; simpa [foCalls] using hR
  · intro k
    have hv : validate O (strip_thinking msg) [] = some ⟨true, [], []⟩ := rfl
    simp only [agent_execute_loop, h, hv]
    rfl
  · intro m0 p0 mo0 task0 cat0 hen0
    rcases hfl0 : foLoop tier now task0 cat0 (m0.config.max_retries + 1) m0 []
      [(p0, mo0)] none with ⟨m1, t1, r1⟩
    refine ⟨m1, t1, r1, ?_⟩
    simp only [execute_with_failover, hen0, eq_self_iff_true, not_true, if_false, hfl0]

/-- C10 witness: the theorem applied to the concrete exhaustion run
`outC10` (one registered provider, every call raising). -/
theorem C10_witness :
    pyStartsWith "All failover attempts exhausted. Last error: boom"
      "All failover attempts exhausted." = true ∧
    ((foCalls [FoEvent.call "p" "m"]).getLast? = some ("p", "m") ∨
      (foCalls [FoEvent.call "p" "m"]).length = mgrC10.config.max_retries + 1) ∧
    agent_execute_loop oracle0 tier0 1000 none "p" "m" taskC10 [] 3 0 mgrC10
      = { ok := true,
          output := some (strip_thinking "All failover attempts exhausted. Last error: boom") } := by
  have hh := C10_exhaustion_is_output tier0 1000 mgrC10 "p" "m" taskC10 none
    outC10m [FoEvent.call "p" "m"] "All failover attempts exhausted. Last error: boom"
    "p" "m" oracle0 (by decide) (by decide)
  exact ⟨hh.1, hh.2.1, hh.2.2.1 2⟩

end MAO
